import Mathlib

/-!
# Ledger validation engine of `blockchain/chain.go`

A shallow embedding of `chain.go`: the balance oracle `Balance`, the validator
`balanceIsValid` / `transactionsIsValid`, and the chain engine `NewChain`, `AddBlock`,
`PushBlock` and `PrintChain`.

* The SQLite table `BlockChain (Id, Hash, Block)` is the list of its stored
  blocks in `Id` order; the row with `Id = k` is the `k`-th element (1-based).
  Serialisation is taken to be lossless.
* `uint64` values are natural numbers, every arithmetic operation of the source
  is followed by an explicit `% 2^64`.
* `map[string]uint64` is a function `String → Option Nat` (`none`: no entry).
* The constants and the transaction predicates `hashIsValid`, `signIsValid`
  are declared in files of the package other than `chain.go`; they are the
  fields of `Config`. The methods of `Block` that `PushBlock` and `PrintChain`
  call are the fields of `Env`.
* An `INSERT` fails when it violates the `UNIQUE` constraint on `Hash`, and
  for no other reason. The query of `Balance` fails when its argument
  `chain.Index` is `2^63` or more, and `Balance` then returns 0; no other read
  fails.
-/

namespace Blockchain

/-- The modulus of `uint64` arithmetic. -/
def U64 : Nat := 2 ^ 64

/-- Go `a + b` on `uint64`. -/
def u64add (a b : Nat) : Nat := (a + b) % U64

/-- Go `a - b` on `uint64` (wraps around below zero). -/
def u64sub (a b : Nat) : Nat := (a + (U64 - b % U64)) % U64

/-- The fields of a `Transaction` that `chain.go` reads, and the hash and
signature it carries. -/
structure Transaction where
  RandBytes : List Nat
  Sender : String
  Receiver : String
  Value : Nat
  ToStorage : Nat
  CurrHash : List Nat
  Signature : List Nat

/-- The fields of a `Block` that `chain.go` reads. -/
structure Block where
  CurrHash : List Nat
  Difficulty : Nat
  Nonce : Nat
  Signature : List Nat
  Miner : String
  Transactions : List Transaction
  Mapping : String → Option Nat

/-- The package constants used by `chain.go` and the two transaction predicates
it calls, all declared outside `chain.go`. `TXS_LIMIT` is a small untyped
constant, so `TXS_LIMIT + plusStorage` does not leave the range of `int`. -/
structure Config where
  STORAGE_CHAIN : String
  STORAGE_VALUE : Nat
  STORAGE_REWARD : Nat
  GENESIS_BLOCK : List Nat
  GENESIS_REWARD : Nat
  TXS_LIMIT : Nat
  hashIsValid : Transaction → Bool
  signIsValid : Transaction → Bool

/-- The runtime handle: the stored blocks in `Id` order and the cursor
`chain.Index`. -/
structure BlockChain where
  DB : List Block
  Index : Nat

/-- The rows of `SELECT Block FROM BlockChain WHERE Id <= $1 ORDER BY Id DESC`
with `$1 = chain.Index`. -/
def BlockChain.rowsDesc (chain : BlockChain) : List Block :=
  (chain.DB.take chain.Index).reverse

/-- The scan loop of `Balance`: the first row with an entry for `address`
decides, `balance` keeps its zero value when no row has one. -/
def scanBalance (address : String) : List Block → Nat
  | [] => 0
  | block :: rows =>
    match block.Mapping address with
    | some value => value
    | none => scanBalance address rows

/-- The least `uint64` that `DB.Query` does not take as an argument: a value with the
high bit set cannot be converted to a query argument, and the query fails. -/
def queryArgLimit : Nat := 2 ^ 63

/-- The method `(chain *BlockChain) Balance(address string) uint64`. When `DB.Query`
fails, which it does for `chain.Index >= 2^63`, the branch `if err != nil` returns the
zero value of `balance`; otherwise the rows are scanned. -/
def BlockChain.Balance (chain : BlockChain) (address : String) : Nat :=
  if chain.Index ≥ queryArgLimit then 0
  else scanBalance address chain.rowsDesc

/-- One iteration of the loop of `balanceIsValid` on the pair
`(balanceSubBlock, balanceAddBlock)`. -/
def balanceStep (cfg : Config) (address : String) (acc : Nat × Nat)
    (tx : Transaction) : Nat × Nat :=
  let sub := if tx.Sender = address then u64add acc.1 (u64add tx.Value tx.ToStorage) else acc.1
  let add := if tx.Receiver = address then u64add acc.2 tx.Value else acc.2
  let add := if cfg.STORAGE_CHAIN = address then u64add add tx.ToStorage else add
  (sub, add)

/-- The method `(chain *BlockChain) balanceIsValid(block *Block, address string) bool`. -/
def BlockChain.balanceIsValid (cfg : Config) (chain : BlockChain) (block : Block)
    (address : String) : Bool :=
  let balanceInChain := chain.Balance address
  let acc := block.Transactions.foldl (balanceStep cfg address) (0, 0)
  let balanceSubBlock := acc.1
  let balanceAddBlock := acc.2
  match block.Mapping address with
  | none => false
  | some value =>
    if u64sub (u64add balanceInChain balanceAddBlock) balanceSubBlock ≠ value then false
    else true

/-- The first loop of `transactionsIsValid`: `plusStorage` is 1 when some
transaction has `Sender == STORAGE_CHAIN`. -/
def plusStorage (cfg : Config) (txs : List Transaction) : Nat :=
  if txs.any (fun tx => tx.Sender = cfg.STORAGE_CHAIN) then 1 else 0

/-- The body of the inner loop over `j` for a pair of positions `i`, `j`:
`true` when neither `return false` is taken. -/
def pairOk (cfg : Config) (txs : List Transaction) (i j : Nat) : Bool :=
  match txs[i]?, txs[j]? with
  | some ti, some tj =>
    if ti.RandBytes = tj.RandBytes then false
    else if ti.Sender = cfg.STORAGE_CHAIN ∧ tj.Sender = cfg.STORAGE_CHAIN then false
    else true
  | _, _ => true

/-- The nested loops `for i := 0; i < lentxs-1; i++ { for j := i+1; j < lentxs; j++ {..} }`
of `transactionsIsValid`: `true` when they fall through. -/
def pairsOk (cfg : Config) (txs : List Transaction) : Bool :=
  (List.range (txs.length - 1)).all fun i =>
    (List.range' (i + 1) (txs.length - (i + 1))).all fun j => pairOk cfg txs i j

/-- The body of the last loop of `transactionsIsValid` for one transaction:
`true` when no `return false` is taken. -/
def txOk (cfg : Config) (chain : BlockChain) (block : Block) (tx : Transaction) : Bool :=
  (if tx.Sender = cfg.STORAGE_CHAIN then
      (if tx.Receiver ≠ block.Miner ∨ tx.Value ≠ cfg.STORAGE_REWARD then false else true)
    else
      (if !cfg.hashIsValid tx then false
       else if !cfg.signIsValid tx then false
       else true))
  && chain.balanceIsValid cfg block tx.Sender
  && chain.balanceIsValid cfg block tx.Receiver

/-- The method `(chain *BlockChain) transactionsIsValid(block *Block) bool`. -/
def BlockChain.transactionsIsValid (cfg : Config) (chain : BlockChain) (block : Block) : Bool :=
  let lentxs := block.Transactions.length
  if lentxs = 0 ∨ lentxs > cfg.TXS_LIMIT + plusStorage cfg block.Transactions then false
  else if !pairsOk cfg block.Transactions then false
  else block.Transactions.all (txOk cfg chain block)

/-- The row with `Id = k`. -/
def BlockChain.blockAt (chain : BlockChain) (k : Nat) : Option Block :=
  if k = 0 then none else chain.DB[k - 1]?

/-- The sum of `Value + ToStorage` over the transactions sent by `address`. -/
def sentTotal (address : String) (txs : List Transaction) : Nat :=
  ((txs.filter fun tx => tx.Sender = address).map fun tx => tx.Value + tx.ToStorage).sum

/-- The sum of `Value` over the transactions received by `address`. -/
def receivedTotal (address : String) (txs : List Transaction) : Nat :=
  ((txs.filter fun tx => tx.Receiver = address).map fun tx => tx.Value).sum

/-- The sum of `ToStorage` over all transactions. -/
def feeTotal (txs : List Transaction) : Nat :=
  (txs.map fun tx => tx.ToStorage).sum

/-- The amounts credited to `address` by the transactions. -/
def creditedTotal (cfg : Config) (address : String) (txs : List Transaction) : Nat :=
  receivedTotal address txs + (if cfg.STORAGE_CHAIN = address then feeTotal txs else 0)

/-- A stand-in digest for the sample configuration: the fields of the transaction in order. -/
def sampleDigest (tx : Transaction) : List Nat :=
  tx.RandBytes ++ tx.Sender.data.map Char.toNat ++ tx.Receiver.data.map Char.toNat
    ++ [tx.Value, tx.ToStorage]

/-- A sample configuration: sample values for the constants, and stand-ins for the hash
and signature checks (the hash is the digest of the fields, the signature is the
sender followed by the hash). -/
def sampleConfig : Config where
  STORAGE_CHAIN := "STORAGE-CHAIN"
  STORAGE_VALUE := 100
  STORAGE_REWARD := 1
  GENESIS_BLOCK := "GENESIS-BLOCK".data.map Char.toNat
  GENESIS_REWARD := 100
  TXS_LIMIT := 2
  hashIsValid := fun tx => tx.CurrHash = sampleDigest tx
  signIsValid := fun tx => tx.Signature = tx.Sender.data.map Char.toNat ++ tx.CurrHash

/-- A transaction with the hash and signature the sample configuration accepts. -/
def sampleTx (rand : List Nat) (sender receiver : String) (value toStorage : Nat) : Transaction :=
  let tx : Transaction := ⟨rand, sender, receiver, value, toStorage, [], []⟩
  { tx with CurrHash := sampleDigest tx,
            Signature := sender.data.map Char.toNat ++ sampleDigest tx }

/-- The genesis block built by `NewChain`. -/
def genesisBlock (cfg : Config) (receiver : String) : Block where
  CurrHash := cfg.GENESIS_BLOCK
  Difficulty := 0
  Nonce := 0
  Signature := []
  Miner := ""
  Transactions := []
  Mapping := fun a =>
    if a = receiver then some cfg.GENESIS_REWARD
    else if a = cfg.STORAGE_CHAIN then some cfg.STORAGE_VALUE
    else none

/-- The ledger right after `NewChain` with receiver `"A"`, in the sample configuration. -/
def sampleChain : BlockChain := ⟨[genesisBlock sampleConfig "A"], 1⟩

/-- A candidate block in which `"A"`, whose balance is 100, sends 101 to `"B"`; the
snapshot records the wrapped-around balance `2^64 - 1` for `"A"`. -/
def overdraftBlock : Block where
  CurrHash := []
  Difficulty := 0
  Nonce := 0
  Signature := []
  Miner := "M"
  Transactions := [sampleTx [1] "A" "B" 101 0]
  Mapping := fun a =>
    if a = "A" then some 18446744073709551615
    else if a = "B" then some 101
    else none

/-- A candidate block in which `"A"` sends 10 to `"B"` with fee 1; the snapshot has the
entries of `"A"` and `"B"` and none for the storage address. -/
def feeBlock : Block where
  CurrHash := []
  Difficulty := 0
  Nonce := 0
  Signature := []
  Miner := "M"
  Transactions := [sampleTx [1] "A" "B" 10 1]
  Mapping := fun a =>
    if a = "A" then some 89
    else if a = "B" then some 10
    else none

/-- The number the spec calls `hasStorageTx`: 1 if some transaction of the block has
`Sender = STORAGE_CHAIN`, and 0 otherwise. -/
def hasStorageTx (cfg : Config) (txs : List Transaction) : Nat :=
  if ∃ tx ∈ txs, tx.Sender = cfg.STORAGE_CHAIN then 1 else 0

/-- A candidate block with the transfer of `feeBlock` and the reward transaction
`STORAGE_CHAIN -> "M"`, with the snapshot entries of all four addresses. -/
def rewardedBlock : Block where
  CurrHash := []
  Difficulty := 0
  Nonce := 0
  Signature := []
  Miner := "M"
  Transactions :=
    [sampleTx [1] "A" "B" 10 1, ⟨[2], "STORAGE-CHAIN", "M", 1, 0, [], []⟩]
  Mapping := fun a =>
    if a = "A" then some 89
    else if a = "B" then some 10
    else if a = "M" then some 1
    else if a = "STORAGE-CHAIN" then some 100
    else none

/-- The block `rewardedBlock` with its transactions replaced. -/
def rewardedBlockWith (txs : List Transaction) : Block :=
  { rewardedBlock with Transactions := txs }

/-- The ledger after `NewChain` with receiver `"A"` and the append of `rewardedBlock`,
with the cursor at `index`. -/
def twoBlockChain (index : Nat) : BlockChain :=
  ⟨[genesisBlock sampleConfig "A", rewardedBlock], index⟩

/-- A candidate block with the single transaction `tx`, whose snapshot records for the
sender and the receiver the `uint64` results of the update, whatever the balance of the
sender is. -/
def wrappedBlock (chain : BlockChain) (miner : String) (tx : Transaction) : Block where
  CurrHash := []
  Difficulty := 0
  Nonce := 0
  Signature := []
  Miner := miner
  Transactions := [tx]
  Mapping := fun a =>
    if a = tx.Sender then some (u64sub (u64add (chain.Balance a) 0) (u64add tx.Value tx.ToStorage))
    else if a = tx.Receiver then some (u64add (chain.Balance a) (u64add 0 tx.Value))
    else none

/-- The method `(chain *BlockChain) AddBlock(block *Block)`: the cursor is incremented
first; the `INSERT` then fails, and its error is dropped, when the `UNIQUE` column `Hash`
already holds the encoding of `block.CurrHash`, and it appends the row otherwise. -/
def BlockChain.AddBlock (chain : BlockChain) (block : Block) : BlockChain :=
  let index := u64add chain.Index 1
  if chain.DB.any (fun stored => stored.CurrHash = block.CurrHash) then
    { DB := chain.DB, Index := index }
  else
    { DB := chain.DB ++ [block], Index := index }

/-- The function `NewChain(filename, receiver string) error` on its path to `return nil`:
the value of the local `chain` after `chain.AddBlock(genesis)` on the new, empty table. -/
def NewChain (cfg : Config) (receiver : String) : BlockChain :=
  BlockChain.AddBlock ⟨[], 0⟩ (genesisBlock cfg receiver)

/-- The method `(chain *BlockChain) Size() uint64`: the greatest `Id`, 0 on an empty
table. -/
def BlockChain.Size (chain : BlockChain) : Nat := chain.DB.length

/-- The two methods of `User` that `PushBlock` calls. -/
structure User where
  Address : String
  Private : List Nat

/-- The methods of `Block` that `chain.go` calls and the constant `DIFFICULTY`, all
declared outside `chain.go`. `AddTransaction` gets the chain handle and the block and
gives the block after the call; it is taken to leave the chain handle as it is. -/
structure Env where
  DIFFICULTY : Nat
  AddTransaction : BlockChain → Block → Transaction → Block
  hash : Block → List Nat
  sign : List Nat → Block → List Nat
  proof : Block → Nat
  blockHashIsValid : Block → Bool
  blockSignIsValid : Block → Bool
  proofIsValid : Block → Bool
  mappingIsValid : Block → Bool

/-- The method `(chain *BlockChain) PushBlock(user *User, block *Block)`; `rand` is the
result of `GenerateRandomBytes(RAND_BYTES)`. The result is the chain and the block after
the call. -/
def BlockChain.PushBlock (cfg : Config) (env : Env) (chain : BlockChain) (user : User)
    (rand : List Nat) (block : Block) : BlockChain × Block :=
  if !chain.transactionsIsValid cfg block then (chain, block)
  else
    let block := env.AddTransaction chain block
      { RandBytes := rand, Sender := cfg.STORAGE_CHAIN, Receiver := user.Address,
        Value := cfg.STORAGE_REWARD, ToStorage := 0, CurrHash := [], Signature := [] }
    let block := { block with CurrHash := env.hash block }
    let block := { block with Signature := env.sign user.Private block }
    let block := { block with Nonce := env.proof block }
    (chain.AddBlock block, block)

/-- The names of the checks that `PrintChain` reports. -/
inductive Check where
  | genesis
  | difficulty
  | hash
  | sign
  | proof
  | mapping
  | transactions

/-- A line printed by `PrintChain`: the verdict of a check, or the final line of a row
with the stored block. -/
inductive ReportLine where
  | verdict (index : Nat) (check : Check) (success : Bool)
  | dump (index : Nat) (block : Block)

/-- The body of the loop of `PrintChain` for the row `(index, block)`, on the chain handle
and the lines printed so far. `index` is an `Id` of the table, at least 2 where
`index - 1` is computed. -/
def printRow (cfg : Config) (env : Env) (state : BlockChain × List ReportLine)
    (row : Nat × Block) : BlockChain × List ReportLine :=
  let chain := state.1
  let out := state.2
  let index := row.1
  let block := row.2
  if index = 1 then
    let out := out ++ [ReportLine.verdict index Check.genesis
      (decide (block.CurrHash = cfg.GENESIS_BLOCK))]
    (chain, out ++ [ReportLine.dump index block])
  else
    let out := out ++ [ReportLine.verdict index Check.difficulty
      (decide (block.Difficulty = env.DIFFICULTY))]
    let out := out ++ [ReportLine.verdict index Check.hash (env.blockHashIsValid block)]
    let out := out ++ [ReportLine.verdict index Check.sign (env.blockSignIsValid block)]
    let out := out ++ [ReportLine.verdict index Check.proof (env.proofIsValid block)]
    let out := out ++ [ReportLine.verdict index Check.mapping (env.mappingIsValid block)]
    let size := chain.Index
    let chain : BlockChain := { chain with Index := index - 1 }
    let out := out ++ [ReportLine.verdict index Check.transactions
      (chain.transactionsIsValid cfg block)]
    let chain : BlockChain := { chain with Index := size }
    (chain, out ++ [ReportLine.dump index block])

/-- The method `(chain *BlockChain) PrintChain() error` on the rows of
`SELECT Id, Block FROM BlockChain`: the chain handle after the call and the lines
printed. -/
def BlockChain.PrintChain (cfg : Config) (env : Env) (chain : BlockChain) :
    BlockChain × List ReportLine :=
  (chain.DB.enumFrom 1).foldl (printRow cfg env) (chain, [])

/-- Modelled from the spec: `block.AddTransaction(chain, tx)` is declared outside
`chain.go`; the spec says of it that `submit` appends the reward transaction to the
candidate's transaction set, so the model appends `tx` and leaves the other fields. -/
def addTransactionSpec (_chain : BlockChain) (block : Block) (tx : Transaction) : Block :=
  { block with Transactions := block.Transactions ++ [tx] }

/-- A stand-in block digest for the sample environment: the miner followed by the digests
of the transactions. -/
def sampleBlockDigest (block : Block) : List Nat :=
  block.Transactions.foldr (fun tx acc => sampleDigest tx ++ acc)
    (block.Miner.data.map Char.toNat)

/-- A sample environment: the spec model of `AddTransaction` and stand-ins for the block
hash, signature and proof of work. -/
def sampleEnv : Env where
  DIFFICULTY := 20
  AddTransaction := addTransactionSpec
  hash := sampleBlockDigest
  sign := fun key block => key ++ block.CurrHash
  proof := fun _ => 0
  blockHashIsValid := fun block => block.CurrHash = sampleBlockDigest block
  blockSignIsValid := fun block => block.Signature.length ≥ block.CurrHash.length
  proofIsValid := fun block => block.Nonce = 0
  mappingIsValid := fun _ => true

/-- The sample configuration with a genesis reward that differs from the storage value. -/
def sampleConfig50 : Config := { sampleConfig with GENESIS_REWARD := 50 }

/-- The reward transaction that `PushBlock` builds. -/
def rewardTransaction (cfg : Config) (user : User) (rand : List Nat) : Transaction :=
  { RandBytes := rand, Sender := cfg.STORAGE_CHAIN, Receiver := user.Address,
    Value := cfg.STORAGE_REWARD, ToStorage := 0, CurrHash := [], Signature := [] }

/-- The candidate after the reward transaction was added and `CurrHash`, `Signature`
and `Nonce` were set, in this order. -/
def finalBlock (cfg : Config) (env : Env) (chain : BlockChain) (user : User)
    (rand : List Nat) (block : Block) : Block :=
  let b1 := env.AddTransaction chain block (rewardTransaction cfg user rand)
  let b2 := { b1 with CurrHash := env.hash b1 }
  let b3 := { b2 with Signature := env.sign user.Private b2 }
  { b3 with Nonce := env.proof b3 }

/-- The lines the spec's replay reports for the stored block at position `index`: for
position 1 the genesis check only; for the others the five block checks and the
transactions check evaluated with the cursor at `index - 1`; then the block itself. -/
def replayLines (cfg : Config) (env : Env) (db : List Block) (index : Nat)
    (block : Block) : List ReportLine :=
  if index = 1 then
    [ReportLine.verdict index Check.genesis (decide (block.CurrHash = cfg.GENESIS_BLOCK)),
      ReportLine.dump index block]
  else
    [ReportLine.verdict index Check.difficulty (decide (block.Difficulty = env.DIFFICULTY)),
      ReportLine.verdict index Check.hash (env.blockHashIsValid block),
      ReportLine.verdict index Check.sign (env.blockSignIsValid block),
      ReportLine.verdict index Check.proof (env.proofIsValid block),
      ReportLine.verdict index Check.mapping (env.mappingIsValid block),
      ReportLine.verdict index Check.transactions
        (BlockChain.transactionsIsValid cfg ⟨db, index - 1⟩ block),
      ReportLine.dump index block]

/-- A user whose address is not the miner of the sample blocks. -/
def sampleUser : User := ⟨"U", [7]⟩

/-- The sum of `Balance(address)` over the listed addresses. -/
def totalBalance (chain : BlockChain) (addrs : List String) : Nat :=
  (addrs.map chain.Balance).sum

/-! ## Lemmas and theorems -/

theorem Balance_of_lt (chain : BlockChain) (address : String)
    (h : chain.Index < queryArgLimit) :
    chain.Balance address = scanBalance address chain.rowsDesc := by
  unfold BlockChain.Balance
  rw [if_neg (by omega)]

theorem Balance_of_ge (chain : BlockChain) (address : String)
    (h : queryArgLimit ≤ chain.Index) : chain.Balance address = 0 := by
  unfold BlockChain.Balance
  rw [if_pos h]

theorem foldl_balanceStep (cfg : Config) (address : String) (txs : List Transaction) :
    ∀ acc : Nat × Nat,
      (txs.foldl (balanceStep cfg address) acc).1 % U64 = (acc.1 + sentTotal address txs) % U64 ∧
      (txs.foldl (balanceStep cfg address) acc).2 % U64
        = (acc.2 + creditedTotal cfg address txs) % U64 := by
  induction txs with
  | nil => intro acc; simp [sentTotal, creditedTotal, receivedTotal, feeTotal]
  | cons tx txs ih =>
    intro acc
    obtain ⟨h1, h2⟩ := ih (balanceStep cfg address acc tx)
    rw [List.foldl_cons, h1, h2]
    unfold balanceStep sentTotal creditedTotal receivedTotal feeTotal u64add U64
    constructor
    · by_cases hs : tx.Sender = address
      · simp [List.filter_cons, hs]; omega
      · simp [List.filter_cons, hs]
    · by_cases hr : tx.Receiver = address <;> by_cases hc : cfg.STORAGE_CHAIN = address <;>
        simp [List.filter_cons, hr, hc] <;> omega

theorem balanceIsValid_iff (cfg : Config) (chain : BlockChain) (block : Block) (address : String) :
    chain.balanceIsValid cfg block address = true ↔
      block.Mapping address = some
        (u64sub (u64add (chain.Balance address)
            (block.Transactions.foldl (balanceStep cfg address) (0, 0)).2)
          (block.Transactions.foldl (balanceStep cfg address) (0, 0)).1) := by
  unfold BlockChain.balanceIsValid
  cases hm : block.Mapping address with
  | none => simp
  | some value =>
    simp only [Option.some.injEq]
    by_cases hv : u64sub (u64add (chain.Balance address)
            (block.Transactions.foldl (balanceStep cfg address) (0, 0)).2)
          (block.Transactions.foldl (balanceStep cfg address) (0, 0)).1 = value
    · subst hv; simp
    · rw [if_pos hv]
      constructor
      · intro h; cases h
      · intro h; exact absurd h.symm hv

theorem u64_closed_form (bal add sub credited sent : Nat)
    (hadd : add % U64 = credited % U64) (hsub : sub % U64 = sent % U64) :
    ((u64sub (u64add bal add) sub : Nat) : Int)
      = ((bal : Int) + (credited : Int) - (sent : Int)) % (2 ^ 64 : Int) := by
  unfold u64sub u64add U64 at *
  norm_num at *
  omega

theorem balanceIsValid_closed (cfg : Config) (chain : BlockChain) (block : Block)
    (address : String) (h : chain.balanceIsValid cfg block address = true) :
    ∃ v, block.Mapping address = some v ∧
      (v : Int) = ((chain.Balance address : Int)
        + (creditedTotal cfg address block.Transactions : Int)
        - (sentTotal address block.Transactions : Int)) % (2 ^ 64 : Int) := by
  rw [balanceIsValid_iff] at h
  refine ⟨_, h, ?_⟩
  obtain ⟨h1, h2⟩ := foldl_balanceStep cfg address block.Transactions (0, 0)
  apply u64_closed_form
  · simpa using h2
  · simpa using h1

theorem transactionsIsValid_iff (cfg : Config) (chain : BlockChain) (block : Block) :
    chain.transactionsIsValid cfg block = true ↔
      (block.Transactions.length ≠ 0 ∧
        block.Transactions.length ≤ cfg.TXS_LIMIT + plusStorage cfg block.Transactions) ∧
      pairsOk cfg block.Transactions = true ∧
      ∀ tx ∈ block.Transactions, txOk cfg chain block tx = true := by
  unfold BlockChain.transactionsIsValid
  by_cases h1 : block.Transactions.length = 0 ∨
      block.Transactions.length > cfg.TXS_LIMIT + plusStorage cfg block.Transactions
  · simp only [h1, if_true]
    constructor
    · intro h; cases h
    · rintro ⟨⟨ha, hb⟩, -⟩
      rcases h1 with h1 | h1
      · exact absurd h1 ha
      · omega
  · have h1n := h1
    push_neg at h1n
    by_cases h2 : pairsOk cfg block.Transactions = true
    · simp [h1, h2, List.all_eq_true]
    · simp [h1, h2]

theorem pairsOk_iff (cfg : Config) (txs : List Transaction) :
    pairsOk cfg txs = true ↔
      ∀ i j, i < j → j < txs.length → pairOk cfg txs i j = true := by
  unfold pairsOk
  simp only [List.all_eq_true, List.mem_range, List.mem_range'_1]
  constructor
  · intro h i j hij hj
    exact h i (by omega) j ⟨by omega, by omega⟩
  · intro h i _ j hj
    exact h i j (by omega) (by omega)

theorem plusStorage_eq_hasStorageTx (cfg : Config) (txs : List Transaction) :
    plusStorage cfg txs = hasStorageTx cfg txs := by
  unfold plusStorage hasStorageTx
  by_cases h : ∃ tx ∈ txs, tx.Sender = cfg.STORAGE_CHAIN
  · rw [if_pos h, if_pos]
    simpa using h
  · rw [if_neg h, if_neg]
    simpa using h

theorem txOk_iff (cfg : Config) (chain : BlockChain) (block : Block) (tx : Transaction) :
    txOk cfg chain block tx = true ↔
      ((tx.Sender = cfg.STORAGE_CHAIN →
          tx.Receiver = block.Miner ∧ tx.Value = cfg.STORAGE_REWARD) ∧
        (tx.Sender ≠ cfg.STORAGE_CHAIN →
          cfg.hashIsValid tx = true ∧ cfg.signIsValid tx = true)) ∧
      chain.balanceIsValid cfg block tx.Sender = true ∧
      chain.balanceIsValid cfg block tx.Receiver = true := by
  unfold txOk
  by_cases hs : tx.Sender = cfg.STORAGE_CHAIN
  · by_cases hr : tx.Receiver = block.Miner <;> by_cases hv : tx.Value = cfg.STORAGE_REWARD <;>
      simp [hs, hr, hv, and_assoc]
  · cases hh : cfg.hashIsValid tx <;> cases hg : cfg.signIsValid tx <;>
      simp [hs, hh, hg, and_assoc]

theorem pairOk_getElem (cfg : Config) (txs : List Transaction) (i j : Nat)
    (ti tj : Transaction) (hi : txs[i]? = some ti) (hj : txs[j]? = some tj) :
    pairOk cfg txs i j = true ↔
      ti.RandBytes ≠ tj.RandBytes ∧
      ¬ (ti.Sender = cfg.STORAGE_CHAIN ∧ tj.Sender = cfg.STORAGE_CHAIN) := by
  unfold pairOk
  rw [hi, hj]
  by_cases hr : ti.RandBytes = tj.RandBytes
  · simp [hr]
  · by_cases hs : ti.Sender = cfg.STORAGE_CHAIN ∧ tj.Sender = cfg.STORAGE_CHAIN
    · simp [hr, hs]
    · simp only [hr, hs, if_false, not_false_eq_true, and_self, ne_eq]

theorem pairsOk_getElem (cfg : Config) (txs : List Transaction) (h : pairsOk cfg txs = true)
    (i j : Nat) (ti tj : Transaction) (hij : i < j)
    (hi : txs[i]? = some ti) (hj : txs[j]? = some tj) :
    ti.RandBytes ≠ tj.RandBytes ∧
      ¬ (ti.Sender = cfg.STORAGE_CHAIN ∧ tj.Sender = cfg.STORAGE_CHAIN) := by
  have hjl : j < txs.length := by
    rcases List.getElem?_eq_some_iff.mp hj with ⟨hl, -⟩
    exact hl
  exact (pairOk_getElem cfg txs i j ti tj hi hj).mp ((pairsOk_iff cfg txs).mp h i j hij hjl)

theorem bool_eq_false_of_not_true {b : Bool} (h : b = true → False) : b = false := by
  cases b
  · rfl
  · exact (h rfl).elim

/-- C1 (evaluation of the code at the failing input): on the ledger right after
`NewChain` with receiver `"A"`, where `Balance("A") = 100`, the block whose only
transaction sends 101 from `"A"` to `"B"` and whose snapshot records `2^64 - 1` for
`"A"` is accepted by `transactionsIsValid`, although `"A"` is credited nothing by the
block and so sends more than its balance plus its credits. -/
theorem overdraft_block_accepted :
    sampleChain.transactionsIsValid sampleConfig overdraftBlock = true ∧
      (∃ tx ∈ overdraftBlock.Transactions, tx.Sender = "A") ∧
      sampleChain.Balance "A" = 100 ∧
      creditedTotal sampleConfig "A" overdraftBlock.Transactions = 0 ∧
      sentTotal "A" overdraftBlock.Transactions = 101 ∧
      ¬ (sentTotal "A" overdraftBlock.Transactions
          ≤ sampleChain.Balance "A" + creditedTotal sampleConfig "A" overdraftBlock.Transactions) := by
  decide

/-- C2: in a block accepted by `transactionsIsValid`, every address that is the Sender
or the Receiver of a transaction has a `Mapping` entry, and the entry is the `uint64`
value of `Balance(address)` plus the `Value`s received by the address, plus all
`ToStorage` fees when the address is `STORAGE_CHAIN`, minus the `Value + ToStorage`
amounts sent by the address: the representative in `[0, 2^64)` of that exact integer. -/
theorem accepted_balance_closure (cfg : Config) (chain : BlockChain) (block : Block)
    (address : String)
    (hvalid : chain.transactionsIsValid cfg block = true)
    (href : ∃ tx ∈ block.Transactions, tx.Sender = address ∨ tx.Receiver = address) :
    ∃ v, block.Mapping address = some v ∧
      (v : Int) = ((chain.Balance address : Int)
        + (receivedTotal address block.Transactions : Int)
        + (if address = cfg.STORAGE_CHAIN then (feeTotal block.Transactions : Int) else 0)
        - (sentTotal address block.Transactions : Int)) % (2 ^ 64 : Int) := by
  obtain ⟨tx, hmem, hor⟩ := href
  have htx := (txOk_iff cfg chain block tx).mp
    (((transactionsIsValid_iff cfg chain block).mp hvalid).2.2 tx hmem)
  have hbal : chain.balanceIsValid cfg block address = true := by
    rcases hor with h | h
    · rw [← h]; exact htx.2.1
    · rw [← h]; exact htx.2.2
  obtain ⟨v, hv, heq⟩ := balanceIsValid_closed cfg chain block address hbal
  refine ⟨v, hv, ?_⟩
  rw [heq]
  unfold creditedTotal
  by_cases hc : address = cfg.STORAGE_CHAIN
  · rw [if_pos hc, if_pos hc.symm]; push_cast; ring_nf
  · rw [if_neg hc, if_neg (fun h => hc h.symm)]; push_cast; ring_nf

/-- Witness of C2 on the ledger after `NewChain` and the block in which `"A"` sends 10
to `"B"` with fee 1. -/
theorem accepted_balance_closure_witness :
    ∃ v, feeBlock.Mapping "A" = some v ∧
      (v : Int) = ((sampleChain.Balance "A" : Int)
        + (receivedTotal "A" feeBlock.Transactions : Int)
        + (if "A" = sampleConfig.STORAGE_CHAIN then (feeTotal feeBlock.Transactions : Int) else 0)
        - (sentTotal "A" feeBlock.Transactions : Int)) % (2 ^ 64 : Int) :=
  accepted_balance_closure sampleConfig sampleChain feeBlock "A" (by decide)
    ⟨sampleTx [1] "A" "B" 10 1, by simp [feeBlock], Or.inl rfl⟩

/-- C3 (counterexample): the block in which `"A"` sends 10 to `"B"` with fee 1 is accepted
by `transactionsIsValid` although its `Mapping` has no entry for `STORAGE_CHAIN`; the
storage address is neither sender nor receiver in it. -/
theorem storage_entry_not_checked :
    sampleChain.transactionsIsValid sampleConfig feeBlock = true ∧
      feeBlock.Mapping sampleConfig.STORAGE_CHAIN = none ∧
      feeTotal feeBlock.Transactions = 1 := by
  decide

/-- C3 (amended): in a block accepted by `transactionsIsValid` in which `STORAGE_CHAIN`
is the Sender or the Receiver of some transaction, `Mapping` has an entry for
`STORAGE_CHAIN`, equal to the `uint64` value of `Balance(STORAGE_CHAIN)` plus all
`ToStorage` fees of the block plus the `Value`s the storage address receives minus the
`Value + ToStorage` amounts it sends. -/
theorem storage_closure_when_referenced (cfg : Config) (chain : BlockChain) (block : Block)
    (hvalid : chain.transactionsIsValid cfg block = true)
    (href : ∃ tx ∈ block.Transactions,
      tx.Sender = cfg.STORAGE_CHAIN ∨ tx.Receiver = cfg.STORAGE_CHAIN) :
    ∃ v, block.Mapping cfg.STORAGE_CHAIN = some v ∧
      (v : Int) = ((chain.Balance cfg.STORAGE_CHAIN : Int)
        + (feeTotal block.Transactions : Int)
        + (receivedTotal cfg.STORAGE_CHAIN block.Transactions : Int)
        - (sentTotal cfg.STORAGE_CHAIN block.Transactions : Int)) % (2 ^ 64 : Int) := by
  obtain ⟨tx, hmem, hor⟩ := href
  have htx := (txOk_iff cfg chain block tx).mp
    (((transactionsIsValid_iff cfg chain block).mp hvalid).2.2 tx hmem)
  have hbal : chain.balanceIsValid cfg block cfg.STORAGE_CHAIN = true := by
    rcases hor with h | h
    · rw [← h]; exact htx.2.1
    · rw [← h]; exact htx.2.2
  obtain ⟨v, hv, heq⟩ := balanceIsValid_closed cfg chain block cfg.STORAGE_CHAIN hbal
  refine ⟨v, hv, ?_⟩
  rw [heq]
  unfold creditedTotal
  rw [if_pos rfl]; push_cast; ring_nf

/-- Witness of C3 (amended) on `rewardedBlock`, whose reward transaction is sent by the
storage address: its entry is 100 + 1 - 1. -/
theorem storage_closure_when_referenced_witness :
    ∃ v, rewardedBlock.Mapping sampleConfig.STORAGE_CHAIN = some v ∧
      (v : Int) = ((sampleChain.Balance sampleConfig.STORAGE_CHAIN : Int)
        + (feeTotal rewardedBlock.Transactions : Int)
        + (receivedTotal sampleConfig.STORAGE_CHAIN rewardedBlock.Transactions : Int)
        - (sentTotal sampleConfig.STORAGE_CHAIN rewardedBlock.Transactions : Int))
        % (2 ^ 64 : Int) :=
  storage_closure_when_referenced sampleConfig sampleChain rewardedBlock (by decide)
    ⟨⟨[2], "STORAGE-CHAIN", "M", 1, 0, [], []⟩, by simp [rewardedBlock], Or.inl rfl⟩

theorem balanceStep_congr (cfg cfg2 : Config) (h : cfg2.STORAGE_CHAIN = cfg.STORAGE_CHAIN) :
    balanceStep cfg2 = balanceStep cfg := by
  funext address acc tx
  unfold balanceStep
  rw [h]

theorem balanceIsValid_congr (cfg cfg2 : Config) (h : cfg2.STORAGE_CHAIN = cfg.STORAGE_CHAIN)
    (chain : BlockChain) (block : Block) (address : String) :
    chain.balanceIsValid cfg2 block address = chain.balanceIsValid cfg block address := by
  unfold BlockChain.balanceIsValid
  rw [balanceStep_congr cfg cfg2 h]

theorem pairsOk_congr (cfg cfg2 : Config) (h : cfg2.STORAGE_CHAIN = cfg.STORAGE_CHAIN)
    (txs : List Transaction) : pairsOk cfg2 txs = pairsOk cfg txs := by
  unfold pairsOk pairOk
  rw [h]

theorem plusStorage_congr (cfg cfg2 : Config) (h : cfg2.STORAGE_CHAIN = cfg.STORAGE_CHAIN)
    (txs : List Transaction) : plusStorage cfg2 txs = plusStorage cfg txs := by
  unfold plusStorage
  rw [h]

theorem exists_two_of_countP {α : Type} (p : α → Bool) :
    ∀ l : List α, 2 ≤ l.countP p →
      ∃ (i j : Nat) (a b : α),
        i < j ∧ l[i]? = some a ∧ l[j]? = some b ∧ p a = true ∧ p b = true := by
  intro l
  induction l with
  | nil => intro h; simp at h
  | cons x xs ih =>
    intro h
    by_cases hx : p x = true
    · rw [List.countP_cons_of_pos _ _ hx] at h
      have hpos : 0 < xs.countP p := by omega
      obtain ⟨b, hb, hpb⟩ := List.countP_pos_iff.mp hpos
      obtain ⟨j, hj⟩ := List.getElem?_of_mem hb
      exact ⟨0, j + 1, x, b, by omega, by simp, by simpa using hj, hx, hpb⟩
    · rw [List.countP_cons_of_neg _ _ hx] at h
      obtain ⟨i, j, a, b, hij, hi, hj, ha, hb⟩ := ih h
      exact ⟨i + 1, j + 1, a, b, by omega, by simpa using hi, by simpa using hj, ha, hb⟩

/-- C4: a block whose transactions at two positions `i < j` have byte-equal `RandBytes`
is rejected by `transactionsIsValid`, whatever the ledger, the configuration and the
other fields of the block and of its transactions. -/
theorem duplicate_nonce_rejected (cfg : Config) (chain : BlockChain) (block : Block)
    (i j : Nat) (ti tj : Transaction) (hij : i < j)
    (hi : block.Transactions[i]? = some ti) (hj : block.Transactions[j]? = some tj)
    (hrand : ti.RandBytes = tj.RandBytes) :
    chain.transactionsIsValid cfg block = false := by
  apply bool_eq_false_of_not_true
  intro hvalid
  have hpairs := ((transactionsIsValid_iff cfg chain block).mp hvalid).2.1
  exact (pairsOk_getElem cfg block.Transactions hpairs i j ti tj hij hi hj).1 hrand

/-- Witness of C4: `rewardedBlock` with the nonce of its reward transaction set to the
nonce of its transfer. -/
theorem duplicate_nonce_rejected_witness :
    sampleChain.transactionsIsValid sampleConfig
      (rewardedBlockWith
        [sampleTx [1] "A" "B" 10 1, ⟨[1], "STORAGE-CHAIN", "M", 1, 0, [], []⟩]) = false :=
  duplicate_nonce_rejected sampleConfig sampleChain _ 0 1
    (sampleTx [1] "A" "B" 10 1) ⟨[1], "STORAGE-CHAIN", "M", 1, 0, [], []⟩
    (by decide) rfl rfl rfl

/-- C5: a block whose transactions at two different positions both have
`Sender = STORAGE_CHAIN` is rejected by `transactionsIsValid`; hence an accepted block
has at most one transaction whose Sender is `STORAGE_CHAIN`. -/
theorem two_storage_txs_rejected (cfg : Config) (chain : BlockChain) (block : Block) :
    (∀ (i j : Nat) (ti tj : Transaction), i ≠ j →
        block.Transactions[i]? = some ti → block.Transactions[j]? = some tj →
        ti.Sender = cfg.STORAGE_CHAIN → tj.Sender = cfg.STORAGE_CHAIN →
        chain.transactionsIsValid cfg block = false) ∧
      (chain.transactionsIsValid cfg block = true →
        block.Transactions.countP (fun tx => tx.Sender = cfg.STORAGE_CHAIN) ≤ 1) := by
  have key : ∀ (i j : Nat) (ti tj : Transaction), i < j →
      block.Transactions[i]? = some ti → block.Transactions[j]? = some tj →
      ti.Sender = cfg.STORAGE_CHAIN → tj.Sender = cfg.STORAGE_CHAIN →
      chain.transactionsIsValid cfg block = true → False := by
    intro i j ti tj hij hi hj hsi hsj hvalid
    have hpairs := ((transactionsIsValid_iff cfg chain block).mp hvalid).2.1
    exact (pairsOk_getElem cfg block.Transactions hpairs i j ti tj hij hi hj).2 ⟨hsi, hsj⟩
  constructor
  · intro i j ti tj hne hi hj hsi hsj
    apply bool_eq_false_of_not_true
    intro hvalid
    rcases Nat.lt_or_gt_of_ne hne with hlt | hgt
    · exact key i j ti tj hlt hi hj hsi hsj hvalid
    · exact key j i tj ti hgt hj hi hsj hsi hvalid
  · intro hvalid
    by_contra hcount
    obtain ⟨i, j, a, b, hij, hi, hj, ha, hb⟩ :=
      exists_two_of_countP (fun tx : Transaction => decide (tx.Sender = cfg.STORAGE_CHAIN))
        block.Transactions (by omega)
    exact key i j a b hij hi hj (by simpa using ha) (by simpa using hb) hvalid

/-- Witness of C5: `rewardedBlock` with a second reward transaction. -/
theorem two_storage_txs_rejected_witness :
    sampleChain.transactionsIsValid sampleConfig
      (rewardedBlockWith
        [⟨[3], "STORAGE-CHAIN", "M", 1, 0, [], []⟩, sampleTx [1] "A" "B" 10 1,
          ⟨[2], "STORAGE-CHAIN", "M", 1, 0, [], []⟩]) = false :=
  (two_storage_txs_rejected sampleConfig sampleChain _).1 2 0
    ⟨[2], "STORAGE-CHAIN", "M", 1, 0, [], []⟩ ⟨[3], "STORAGE-CHAIN", "M", 1, 0, [], []⟩
    (by decide) rfl rfl rfl rfl

/-- C6: a block in which the Sender or the Receiver of some transaction has no entry in
`block.Mapping` is rejected by `transactionsIsValid`. -/
theorem missing_entry_rejected (cfg : Config) (chain : BlockChain) (block : Block)
    (tx : Transaction) (hmem : tx ∈ block.Transactions)
    (hnone : block.Mapping tx.Sender = none ∨ block.Mapping tx.Receiver = none) :
    chain.transactionsIsValid cfg block = false := by
  apply bool_eq_false_of_not_true
  intro hvalid
  have htx := (txOk_iff cfg chain block tx).mp
    (((transactionsIsValid_iff cfg chain block).mp hvalid).2.2 tx hmem)
  rcases hnone with h | h
  · have := (balanceIsValid_iff cfg chain block tx.Sender).mp htx.2.1
    rw [h] at this; cases this
  · have := (balanceIsValid_iff cfg chain block tx.Receiver).mp htx.2.2
    rw [h] at this; cases this

/-- Witness of C6: `rewardedBlock` is accepted, and it is rejected once the entry of the
receiver `"B"` is taken out of its `Mapping`. -/
theorem missing_entry_rejected_witness :
    sampleChain.transactionsIsValid sampleConfig rewardedBlock = true ∧
      sampleChain.transactionsIsValid sampleConfig
        { rewardedBlock with
          Mapping := fun a => if a = "B" then none else rewardedBlock.Mapping a } = false :=
  ⟨by decide,
    missing_entry_rejected sampleConfig sampleChain
      { rewardedBlock with
        Mapping := fun a => if a = "B" then none else rewardedBlock.Mapping a }
      (sampleTx [1] "A" "B" 10 1) (by simp [rewardedBlock]) (Or.inr (by decide))⟩

theorem transactionsIsValid_of_agree (cfg cfg2 : Config)
    (hsc : cfg2.STORAGE_CHAIN = cfg.STORAGE_CHAIN)
    (hrw : cfg2.STORAGE_REWARD = cfg.STORAGE_REWARD)
    (hlim : cfg2.TXS_LIMIT = cfg.TXS_LIMIT)
    (chain : BlockChain) (block : Block)
    (hagree : ∀ tx ∈ block.Transactions, tx.Sender ≠ cfg.STORAGE_CHAIN →
      cfg2.hashIsValid tx = cfg.hashIsValid tx ∧ cfg2.signIsValid tx = cfg.signIsValid tx)
    (hvalid : chain.transactionsIsValid cfg block = true) :
    chain.transactionsIsValid cfg2 block = true := by
  have h := (transactionsIsValid_iff cfg chain block).mp hvalid
  rw [transactionsIsValid_iff]
  refine ⟨?_, ?_, ?_⟩
  · rw [plusStorage_congr cfg cfg2 hsc, hlim]; exact h.1
  · rw [pairsOk_congr cfg cfg2 hsc]; exact h.2.1
  · intro tx hmem
    have htx := (txOk_iff cfg chain block tx).mp (h.2.2 tx hmem)
    rw [txOk_iff, balanceIsValid_congr cfg cfg2 hsc, balanceIsValid_congr cfg cfg2 hsc, hsc, hrw]
    refine ⟨⟨htx.1.1, ?_⟩, htx.2⟩
    intro hne
    have ha := hagree tx hmem hne
    have hb := htx.1.2 hne
    exact ⟨ha.1.trans hb.1, ha.2.trans hb.2⟩

/-- C7: `transactionsIsValid` rejects every block with zero transactions and every block
with more than `TXS_LIMIT + hasStorageTx` transactions; so an accepted block has between
1 and `TXS_LIMIT + hasStorageTx` transactions. -/
theorem cardinality_bounds (cfg : Config) (chain : BlockChain) (block : Block) :
    (block.Transactions.length = 0 ∨
        block.Transactions.length > cfg.TXS_LIMIT + hasStorageTx cfg block.Transactions →
        chain.transactionsIsValid cfg block = false) ∧
      (chain.transactionsIsValid cfg block = true →
        1 ≤ block.Transactions.length ∧
        block.Transactions.length ≤ cfg.TXS_LIMIT + hasStorageTx cfg block.Transactions) := by
  have key : chain.transactionsIsValid cfg block = true →
      1 ≤ block.Transactions.length ∧
      block.Transactions.length ≤ cfg.TXS_LIMIT + hasStorageTx cfg block.Transactions := by
    intro hvalid
    have h := ((transactionsIsValid_iff cfg chain block).mp hvalid).1
    rw [plusStorage_eq_hasStorageTx] at h
    exact ⟨Nat.pos_of_ne_zero h.1, h.2⟩
  refine ⟨?_, key⟩
  intro hbad
  apply bool_eq_false_of_not_true
  intro hvalid
  have := key hvalid
  omega

/-- Witness of C7: a block without transactions is rejected, and the accepted block
`rewardedBlock` has between 1 and `TXS_LIMIT + 1` transactions. -/
theorem cardinality_bounds_witness :
    sampleChain.transactionsIsValid sampleConfig (rewardedBlockWith []) = false ∧
      (1 ≤ rewardedBlock.Transactions.length ∧
        rewardedBlock.Transactions.length
          ≤ sampleConfig.TXS_LIMIT + hasStorageTx sampleConfig rewardedBlock.Transactions) :=
  ⟨(cardinality_bounds sampleConfig sampleChain (rewardedBlockWith [])).1 (Or.inl rfl),
    (cardinality_bounds sampleConfig sampleChain rewardedBlock).2 (by decide)⟩

/-- C8: in a block accepted by `transactionsIsValid`, every transaction whose Sender is
`STORAGE_CHAIN` has `Receiver = block.Miner` and `Value = STORAGE_REWARD`, and every other
transaction satisfies `hashIsValid` and `signIsValid`; and no hash or signature check
bears on the storage transactions: the block stays accepted under any other pair of
hash and signature predicates that agree with the given ones on the transactions whose
Sender is not `STORAGE_CHAIN`. -/
theorem accepted_tx_shape (cfg : Config) (chain : BlockChain) (block : Block)
    (hvalid : chain.transactionsIsValid cfg block = true) :
    (∀ tx ∈ block.Transactions,
        (tx.Sender = cfg.STORAGE_CHAIN →
          tx.Receiver = block.Miner ∧ tx.Value = cfg.STORAGE_REWARD) ∧
        (tx.Sender ≠ cfg.STORAGE_CHAIN →
          cfg.hashIsValid tx = true ∧ cfg.signIsValid tx = true)) ∧
      (∀ hashIsValid2 signIsValid2 : Transaction → Bool,
        (∀ tx ∈ block.Transactions, tx.Sender ≠ cfg.STORAGE_CHAIN →
          hashIsValid2 tx = cfg.hashIsValid tx ∧ signIsValid2 tx = cfg.signIsValid tx) →
        chain.transactionsIsValid
          { cfg with hashIsValid := hashIsValid2, signIsValid := signIsValid2 } block = true) := by
  have h := (transactionsIsValid_iff cfg chain block).mp hvalid
  constructor
  · intro tx hmem
    exact ((txOk_iff cfg chain block tx).mp (h.2.2 tx hmem)).1
  · intro hashIsValid2 signIsValid2 hagree
    exact transactionsIsValid_of_agree cfg
      { cfg with hashIsValid := hashIsValid2, signIsValid := signIsValid2 }
      rfl rfl rfl chain block hagree hvalid

/-- Witness of C8 on the accepted block `rewardedBlock`: its reward transaction, which
carries no hash and no signature, pays `STORAGE_REWARD` to the miner. -/
theorem accepted_tx_shape_witness :
    (∀ tx ∈ rewardedBlock.Transactions,
        (tx.Sender = sampleConfig.STORAGE_CHAIN →
          tx.Receiver = rewardedBlock.Miner ∧ tx.Value = sampleConfig.STORAGE_REWARD) ∧
        (tx.Sender ≠ sampleConfig.STORAGE_CHAIN →
          sampleConfig.hashIsValid tx = true ∧ sampleConfig.signIsValid tx = true)) ∧
      sampleConfig.hashIsValid ⟨[2], "STORAGE-CHAIN", "M", 1, 0, [], []⟩ = false :=
  ⟨(accepted_tx_shape sampleConfig sampleChain rewardedBlock (by decide)).1, by decide⟩

theorem scanBalance_of_none (address : String) :
    ∀ rows : List Block, (∀ b ∈ rows, b.Mapping address = none) →
      scanBalance address rows = 0 := by
  intro rows
  induction rows with
  | nil => intro _; rfl
  | cons b rows ih =>
    intro h
    have hb := h b (List.mem_cons_self _ _)
    simp only [scanBalance, hb]
    exact ih (fun b' hb' => h b' (List.mem_cons_of_mem _ hb'))

theorem scanBalance_of_first (address : String) (b : Block) (v : Nat) (post : List Block)
    (hb : b.Mapping address = some v) :
    ∀ pre : List Block, (∀ b' ∈ pre, b'.Mapping address = none) →
      scanBalance address (pre ++ b :: post) = v := by
  intro pre
  induction pre with
  | nil => intro _; simp only [List.nil_append, scanBalance, hb]
  | cons c pre ih =>
    intro h
    have hc := h c (List.mem_cons_self _ _)
    simp only [List.cons_append, scanBalance, hc]
    exact ih (fun b' hb' => h b' (List.mem_cons_of_mem _ hb'))

theorem blockAt_of_take_getElem (chain : BlockChain) (i : Nat) (b : Block)
    (h : (chain.DB.take chain.Index)[i]? = some b) :
    chain.blockAt (i + 1) = some b ∧ i + 1 ≤ chain.Index := by
  rw [List.getElem?_take] at h
  by_cases hi : i < chain.Index
  · rw [if_pos hi] at h
    exact ⟨by simpa [BlockChain.blockAt] using h, hi⟩
  · rw [if_neg hi] at h; cases h

theorem take_getElem_of_blockAt (chain : BlockChain) (k : Nat) (b : Block)
    (h : chain.blockAt k = some b) (hk : k ≤ chain.Index) :
    1 ≤ k ∧ (chain.DB.take chain.Index)[k - 1]? = some b := by
  unfold BlockChain.blockAt at h
  by_cases h0 : k = 0
  · rw [if_pos h0] at h; cases h
  · rw [if_neg h0] at h
    refine ⟨Nat.pos_of_ne_zero h0, ?_⟩
    rw [List.getElem?_take, if_pos (by omega)]
    exact h

theorem split_at_getElem {α : Type} (l : List α) (i : Nat) (x : α) (h : l[i]? = some x) :
    l = l.take i ++ x :: l.drop (i + 1) := by
  obtain ⟨hi, hx⟩ := List.getElem?_eq_some_iff.mp h
  rw [← hx, ← List.drop_eq_getElem_cons hi, List.take_append_drop]

theorem scan_oracle (chain : BlockChain) (address : String) :
    (∀ (k : Nat) (b : Block) (v : Nat),
        chain.blockAt k = some b → k ≤ chain.Index → b.Mapping address = some v →
        (∀ (k2 : Nat) (b2 : Block), k < k2 → k2 ≤ chain.Index →
          chain.blockAt k2 = some b2 → b2.Mapping address = none) →
        scanBalance address chain.rowsDesc = v) ∧
      ((∀ (k : Nat) (b : Block), 1 ≤ k → k ≤ chain.Index →
          chain.blockAt k = some b → b.Mapping address = none) →
        scanBalance address chain.rowsDesc = 0) := by
  constructor
  · intro k b v hat hk hv habove
    obtain ⟨hk1, hget⟩ := take_getElem_of_blockAt chain k b hat hk
    have hsplit := split_at_getElem _ _ _ hget
    have hk2 : k - 1 + 1 = k := by omega
    rw [hk2] at hsplit
    unfold BlockChain.rowsDesc
    rw [hsplit, List.reverse_append, List.reverse_cons, List.append_assoc, List.singleton_append]
    apply scanBalance_of_first address b v _ hv
    intro b2 hb2
    rw [List.mem_reverse] at hb2
    obtain ⟨i, hi⟩ := List.getElem?_of_mem hb2
    rw [List.getElem?_drop] at hi
    obtain ⟨hat2, hle2⟩ := blockAt_of_take_getElem chain (k + i) b2 hi
    exact habove (k + i + 1) b2 (by omega) hle2 hat2
  · intro hnone
    unfold BlockChain.rowsDesc
    apply scanBalance_of_none
    intro b hb
    rw [List.mem_reverse] at hb
    obtain ⟨i, hi⟩ := List.getElem?_of_mem hb
    obtain ⟨hat, hle⟩ := blockAt_of_take_getElem chain i b hi
    exact hnone (i + 1) b (by omega) hle hat

/-- C9 (counterexample): on the two-block ledger with the cursor at `2^63`, the block of
greatest height below the cursor with an entry for `"A"` is block 2, with entry 89, and
`Balance("A")` is 0: the query does not take the cursor as an argument and `Balance`
returns on `err != nil`. -/
theorem Balance_zero_at_high_cursor :
    (twoBlockChain 9223372036854775808).blockAt 2 = some rewardedBlock ∧
      2 ≤ (twoBlockChain 9223372036854775808).Index ∧
      (twoBlockChain 9223372036854775808).DB.length = 2 ∧
      rewardedBlock.Mapping "A" = some 89 ∧
      (twoBlockChain 9223372036854775808).Balance "A" = 0 :=
  ⟨rfl, by decide, rfl, rfl, by decide⟩

/-- C9 (amended): with a cursor `chain.Index` below `2^63`, `Balance(address)` is the
`Mapping[address]` entry of the stored block of greatest height `k <= chain.Index` whose
`Mapping` has an entry for the address, and it is 0 when no stored block at heights
`1..chain.Index` has one; with a cursor of `2^63` or more, `Balance(address)` is 0. -/
theorem Balance_oracle (chain : BlockChain) (address : String) :
    (chain.Index < queryArgLimit →
        (∀ (k : Nat) (b : Block) (v : Nat),
          chain.blockAt k = some b → k ≤ chain.Index → b.Mapping address = some v →
          (∀ (k2 : Nat) (b2 : Block), k < k2 → k2 ≤ chain.Index →
            chain.blockAt k2 = some b2 → b2.Mapping address = none) →
          chain.Balance address = v) ∧
        ((∀ (k : Nat) (b : Block), 1 ≤ k → k ≤ chain.Index →
            chain.blockAt k = some b → b.Mapping address = none) →
          chain.Balance address = 0)) ∧
      (queryArgLimit ≤ chain.Index → chain.Balance address = 0) := by
  refine ⟨?_, Balance_of_ge chain address⟩
  intro hlt
  rw [Balance_of_lt chain address hlt]
  exact scan_oracle chain address

/-- Witness of C9 (amended) on the two-block ledger: at cursor 2 the balance of `"A"` is
the entry 89 of block 2, at cursor 1 the balance of `"B"` is 0, and at cursor `2^63` the
balance of `"A"` is 0. -/
theorem Balance_oracle_witness :
    (twoBlockChain 2).Balance "A" = 89 ∧ (twoBlockChain 1).Balance "B" = 0 ∧
      (twoBlockChain 9223372036854775808).Balance "A" = 0 :=
  ⟨((Balance_oracle (twoBlockChain 2) "A").1 (by decide)).1 2 rewardedBlock 89 rfl
      (by decide) rfl
      (fun k2 b2 hlt hle => by
        have : k2 ≤ 2 := hle
        omega),
    ((Balance_oracle (twoBlockChain 1) "B").1 (by decide)).2 (fun k b h1 hle hat => by
      have hk : k = 1 := by
        have : k ≤ 1 := hle
        omega
      subst hk
      have hb : genesisBlock sampleConfig "A" = b := by
        simpa [BlockChain.blockAt, twoBlockChain] using hat
      subst hb
      decide),
    (Balance_oracle (twoBlockChain 9223372036854775808) "A").2 (by decide)⟩

theorem take_eq_of_blockAt_eq (db1 db2 : List Block) (h : Nat)
    (heq : ∀ k, 1 ≤ k → k ≤ h →
      BlockChain.blockAt ⟨db1, h⟩ k = BlockChain.blockAt ⟨db2, h⟩ k) :
    db1.take h = db2.take h := by
  apply List.ext_getElem?
  intro i
  rw [List.getElem?_take, List.getElem?_take]
  by_cases hi : i < h
  · rw [if_pos hi, if_pos hi]
    simpa [BlockChain.blockAt] using heq (i + 1) (by omega) (by omega)
  · rw [if_neg hi, if_neg hi]

/-- C10: `Balance` with cursor `h` does not observe blocks above `h`: on two ledgers whose
blocks at heights `1..h` are equal, whatever they hold above `h`, `Balance(address)` with
`chain.Index = h` is the same for every address, and so is the verdict of
`transactionsIsValid` on every block. -/
theorem cursor_height_bound (cfg : Config) (h : Nat) (db1 db2 : List Block)
    (heq : ∀ k, 1 ≤ k → k ≤ h →
      BlockChain.blockAt ⟨db1, h⟩ k = BlockChain.blockAt ⟨db2, h⟩ k) :
    (∀ address : String,
        BlockChain.Balance ⟨db1, h⟩ address = BlockChain.Balance ⟨db2, h⟩ address) ∧
      (∀ block : Block,
        BlockChain.transactionsIsValid cfg ⟨db1, h⟩ block
          = BlockChain.transactionsIsValid cfg ⟨db2, h⟩ block) := by
  have htake := take_eq_of_blockAt_eq db1 db2 h heq
  have hbal : ∀ address : String,
      BlockChain.Balance ⟨db1, h⟩ address = BlockChain.Balance ⟨db2, h⟩ address := by
    intro address
    unfold BlockChain.Balance BlockChain.rowsDesc
    simp only [htake]
  refine ⟨hbal, ?_⟩
  intro block
  unfold BlockChain.transactionsIsValid txOk BlockChain.balanceIsValid
  simp only [hbal]

/-- Witness of C10: the ledger with the genesis block only and the two-block ledger agree
at cursor 1. -/
theorem cursor_height_bound_witness :
    (∀ address : String,
        BlockChain.Balance ⟨[genesisBlock sampleConfig "A"], 1⟩ address
          = BlockChain.Balance ⟨[genesisBlock sampleConfig "A", rewardedBlock], 1⟩ address) ∧
      (∀ block : Block,
        BlockChain.transactionsIsValid sampleConfig ⟨[genesisBlock sampleConfig "A"], 1⟩ block
          = BlockChain.transactionsIsValid sampleConfig
              ⟨[genesisBlock sampleConfig "A", rewardedBlock], 1⟩ block) :=
  cursor_height_bound sampleConfig 1 _ _ (fun k h1 hle => by
    have hk : k = 1 := by omega
    subst hk
    rfl)

/-- Whatever the constants are (with `TXS_LIMIT >= 1`) and whatever the balance of the
sender is, the single-transaction block with the wrapped-around snapshot is accepted. -/
theorem wrappedBlock_accepted (cfg : Config) (chain : BlockChain) (miner : String)
    (tx : Transaction) (hlim : 1 ≤ cfg.TXS_LIMIT)
    (hsr : tx.Sender ≠ tx.Receiver)
    (hs : tx.Sender ≠ cfg.STORAGE_CHAIN) (hr : tx.Receiver ≠ cfg.STORAGE_CHAIN)
    (hhash : cfg.hashIsValid tx = true) (hsign : cfg.signIsValid tx = true) :
    chain.transactionsIsValid cfg (wrappedBlock chain miner tx) = true := by
  have hrs : tx.Receiver ≠ tx.Sender := fun h => hsr h.symm
  have hs2 : cfg.STORAGE_CHAIN ≠ tx.Sender := fun h => hs h.symm
  have hr2 : cfg.STORAGE_CHAIN ≠ tx.Receiver := fun h => hr h.symm
  rw [transactionsIsValid_iff]
  refine ⟨⟨by simp [wrappedBlock], ?_⟩, ?_, ?_⟩
  · simp only [wrappedBlock, List.length_singleton]; omega
  · rw [pairsOk_iff]
    intro i j hij hj
    simp only [wrappedBlock, List.length_singleton] at hj
    omega
  · intro tx2 hmem
    have htx : tx2 = tx := by simpa [wrappedBlock] using hmem
    subst htx
    rw [txOk_iff]
    refine ⟨⟨fun h => absurd h hs, fun _ => ⟨hhash, hsign⟩⟩, ?_, ?_⟩
    · rw [balanceIsValid_iff]
      simp [wrappedBlock, balanceStep, hrs, hs2, u64add, u64sub]
    · rw [balanceIsValid_iff]
      simp [wrappedBlock, balanceStep, hrs, hsr, hr2, u64add, u64sub, U64]

theorem Balance_singleton (block : Block) (address : String) :
    BlockChain.Balance ⟨[block], 1⟩ address = (block.Mapping address).getD 0 := by
  rw [Balance_of_lt _ _ (by unfold queryArgLimit; norm_num)]
  unfold BlockChain.rowsDesc
  simp only [List.take_succ_cons, List.take_zero, List.reverse_singleton, scanBalance]
  cases block.Mapping address <;> rfl

theorem NewChain_eq (cfg : Config) (receiver : String) :
    NewChain cfg receiver = ⟨[genesisBlock cfg receiver], 1⟩ := by
  unfold NewChain BlockChain.AddBlock
  simp [u64add, U64]

/-- C11 (counterexample): the constants are parameters of the model; with a genesis
reward of 50 and a storage value of 100, after `NewChain(filename, STORAGE_CHAIN)` the
balance of `STORAGE_CHAIN` at cursor 1 is the genesis reward 50, not `STORAGE_VALUE`: the
second assignment to `genesis.Mapping` replaces the first. So the claim does not hold for
every value of the constants and every receiver. -/
theorem genesis_receiver_is_storage :
    (NewChain sampleConfig50 sampleConfig50.STORAGE_CHAIN).Index = 1 ∧
      (NewChain sampleConfig50 sampleConfig50.STORAGE_CHAIN).Balance
        sampleConfig50.STORAGE_CHAIN = 50 ∧
      sampleConfig50.STORAGE_VALUE = 100 ∧
      ¬ (∀ (cfg : Config) (receiver : String),
        (NewChain cfg receiver).Balance cfg.STORAGE_CHAIN = cfg.STORAGE_VALUE) :=
  ⟨by decide, by decide, rfl, fun h =>
    absurd (h sampleConfig50 sampleConfig50.STORAGE_CHAIN) (by decide)⟩

/-- C11 (amended): for every receiver, after `NewChain(filename, receiver)` the ledger
holds exactly one block, at height 1, whose `CurrHash` is `GENESIS_BLOCK`; it was
appended although `transactionsIsValid` rejects it (it has no transactions); with the
cursor at 1, `Balance(receiver) = GENESIS_REWARD`, and
`Balance(STORAGE_CHAIN) = STORAGE_VALUE` if and only if the receiver is not
`STORAGE_CHAIN` or the two constants are equal. -/
theorem genesis_acceptance (cfg : Config) (receiver : String) :
    (∃ genesis, (NewChain cfg receiver).DB = [genesis] ∧
        (NewChain cfg receiver).blockAt 1 = some genesis ∧
        genesis.CurrHash = cfg.GENESIS_BLOCK ∧
        ∀ chain : BlockChain, chain.transactionsIsValid cfg genesis = false) ∧
      (NewChain cfg receiver).Index = 1 ∧
      (NewChain cfg receiver).Balance receiver = cfg.GENESIS_REWARD ∧
      ((NewChain cfg receiver).Balance cfg.STORAGE_CHAIN = cfg.STORAGE_VALUE ↔
        receiver ≠ cfg.STORAGE_CHAIN ∨ cfg.STORAGE_VALUE = cfg.GENESIS_REWARD) := by
  rw [NewChain_eq]
  refine ⟨⟨genesisBlock cfg receiver, rfl, rfl, rfl, ?_⟩, rfl, ?_, ?_⟩
  · intro chain
    simp [BlockChain.transactionsIsValid, genesisBlock]
  · rw [Balance_singleton]
    simp [genesisBlock]
  · rw [Balance_singleton]
    by_cases hc : cfg.STORAGE_CHAIN = receiver
    · subst hc
      simp only [genesisBlock, if_true, Option.getD_some, ne_eq, not_true_eq_false, false_or]
      exact eq_comm
    · have hr : receiver ≠ cfg.STORAGE_CHAIN := fun h => hc h.symm
      simp [genesisBlock, hc, hr]

/-- Witness of C11 (amended): `NewChain` with receiver `"A"` in the sample
configuration, and with receiver `STORAGE_CHAIN` where the genesis reward is 50. -/
theorem genesis_acceptance_witness :
    (NewChain sampleConfig "A").Index = 1 ∧
      (NewChain sampleConfig "A").Balance "A" = 100 ∧
      (NewChain sampleConfig "A").Balance sampleConfig.STORAGE_CHAIN = 100 ∧
      (NewChain sampleConfig50 "STORAGE-CHAIN").Index = 1 ∧
      (NewChain sampleConfig50 "STORAGE-CHAIN").Balance "STORAGE-CHAIN" = 50 :=
  ⟨(genesis_acceptance sampleConfig "A").2.1,
    (genesis_acceptance sampleConfig "A").2.2.1,
    (genesis_acceptance sampleConfig "A").2.2.2.mpr (Or.inl (by decide)),
    (genesis_acceptance sampleConfig50 "STORAGE-CHAIN").2.1,
    (genesis_acceptance sampleConfig50 "STORAGE-CHAIN").2.2.1⟩

theorem u64_congr (bal add sub credited sent : Nat)
    (hadd : add % U64 = credited % U64) (hsub : sub % U64 = sent % U64) :
    u64sub (u64add bal add) sub = u64sub (u64add bal credited) sent := by
  unfold u64sub u64add U64 at *
  norm_num at *
  omega

theorem balanceIsValid_iff_totals (cfg : Config) (chain : BlockChain) (block : Block)
    (address : String) :
    chain.balanceIsValid cfg block address = true ↔
      block.Mapping address = some
        (u64sub (u64add (chain.Balance address) (creditedTotal cfg address block.Transactions))
          (sentTotal address block.Transactions)) := by
  rw [balanceIsValid_iff]
  obtain ⟨h1, h2⟩ := foldl_balanceStep cfg address block.Transactions (0, 0)
  rw [u64_congr (chain.Balance address) _ _ (creditedTotal cfg address block.Transactions)
    (sentTotal address block.Transactions) (by simpa using h2) (by simpa using h1)]

theorem sentTotal_perm (address : String) (txs txs2 : List Transaction) (h : txs.Perm txs2) :
    sentTotal address txs = sentTotal address txs2 := by
  unfold sentTotal
  exact ((h.filter _).map _).sum_eq

theorem creditedTotal_perm (cfg : Config) (address : String) (txs txs2 : List Transaction)
    (h : txs.Perm txs2) :
    creditedTotal cfg address txs = creditedTotal cfg address txs2 := by
  unfold creditedTotal receivedTotal feeTotal
  rw [((h.filter _).map _).sum_eq, (h.map _).sum_eq]

theorem pairsOk_iff_pairwise (cfg : Config) (txs : List Transaction) :
    pairsOk cfg txs = true ↔
      txs.Pairwise (fun a b => a.RandBytes ≠ b.RandBytes ∧
        ¬ (a.Sender = cfg.STORAGE_CHAIN ∧ b.Sender = cfg.STORAGE_CHAIN)) := by
  rw [pairsOk_iff, List.pairwise_iff_getElem]
  constructor
  · intro h i j hi hj hij
    exact (pairOk_getElem cfg txs i j _ _ (List.getElem?_eq_getElem hi)
      (List.getElem?_eq_getElem hj)).mp (h i j hij hj)
  · intro h i j hij hj
    have hi : i < txs.length := by omega
    exact (pairOk_getElem cfg txs i j _ _ (List.getElem?_eq_getElem hi)
      (List.getElem?_eq_getElem hj)).mpr (h i j hi hj hij)

theorem pairsOk_perm (cfg : Config) (txs txs2 : List Transaction) (h : txs.Perm txs2) :
    pairsOk cfg txs = true ↔ pairsOk cfg txs2 = true := by
  rw [pairsOk_iff_pairwise, pairsOk_iff_pairwise]
  apply h.pairwise_iff
  intro a b hab
  exact ⟨fun hh => hab.1 hh.symm, fun hh => hab.2 ⟨hh.2, hh.1⟩⟩

theorem hasStorageTx_perm (cfg : Config) (txs txs2 : List Transaction) (h : txs.Perm txs2) :
    hasStorageTx cfg txs = hasStorageTx cfg txs2 := by
  unfold hasStorageTx
  have : (∃ tx ∈ txs, tx.Sender = cfg.STORAGE_CHAIN) ↔
      (∃ tx ∈ txs2, tx.Sender = cfg.STORAGE_CHAIN) := by
    constructor
    · rintro ⟨tx, hm, hs⟩; exact ⟨tx, h.mem_iff.mp hm, hs⟩
    · rintro ⟨tx, hm, hs⟩; exact ⟨tx, h.mem_iff.mpr hm, hs⟩
  by_cases hex : ∃ tx ∈ txs, tx.Sender = cfg.STORAGE_CHAIN
  · rw [if_pos hex, if_pos (this.mp hex)]
  · rw [if_neg hex, if_neg (fun h2 => hex (this.mpr h2))]

theorem valid_transfer (cfg : Config) (chain : BlockChain) (b1 b2 : Block)
    (hminer : b2.Miner = b1.Miner) (hperm : b1.Transactions.Perm b2.Transactions)
    (hmap : ∀ tx ∈ b1.Transactions,
      b2.Mapping tx.Sender = b1.Mapping tx.Sender ∧
      b2.Mapping tx.Receiver = b1.Mapping tx.Receiver)
    (hvalid : chain.transactionsIsValid cfg b1 = true) :
    chain.transactionsIsValid cfg b2 = true := by
  have h := (transactionsIsValid_iff cfg chain b1).mp hvalid
  rw [transactionsIsValid_iff]
  refine ⟨?_, (pairsOk_perm cfg _ _ hperm).mp h.2.1, ?_⟩
  · rw [plusStorage_eq_hasStorageTx, ← hasStorageTx_perm cfg _ _ hperm, ← hperm.length_eq,
      ← plusStorage_eq_hasStorageTx]
    exact h.1
  · intro tx hmem
    have hmem1 : tx ∈ b1.Transactions := hperm.mem_iff.mpr hmem
    have htx := (txOk_iff cfg chain b1 tx).mp (h.2.2 tx hmem1)
    rw [balanceIsValid_iff_totals, balanceIsValid_iff_totals] at htx
    rw [txOk_iff, balanceIsValid_iff_totals, balanceIsValid_iff_totals, hminer,
      (hmap tx hmem1).1, (hmap tx hmem1).2,
      ← sentTotal_perm _ _ _ hperm, ← sentTotal_perm _ _ _ hperm,
      ← creditedTotal_perm cfg _ _ _ hperm, ← creditedTotal_perm cfg _ _ _ hperm]
    exact htx

/-- C17: the order of the transactions does not affect validity: for every ledger state,
block and permutation `p` of the block's transactions, `transactionsIsValid` gives the
same verdict on the block and on the block with `p` as its transactions. -/
theorem order_irrelevant (cfg : Config) (chain : BlockChain) (block : Block)
    (p : List Transaction) (hperm : p.Perm block.Transactions) :
    chain.transactionsIsValid cfg { block with Transactions := p }
      = chain.transactionsIsValid cfg block := by
  apply Bool.eq_iff_iff.mpr
  constructor
  · exact valid_transfer cfg chain { block with Transactions := p } block rfl hperm
      (fun tx _ => ⟨rfl, rfl⟩)
  · exact valid_transfer cfg chain block { block with Transactions := p } rfl hperm.symm
      (fun tx _ => ⟨rfl, rfl⟩)

/-- Witness of C17: `rewardedBlock` with its two transactions swapped is accepted as
`rewardedBlock` is. -/
theorem order_irrelevant_witness :
    sampleChain.transactionsIsValid sampleConfig
        { rewardedBlock with Transactions :=
            [⟨[2], "STORAGE-CHAIN", "M", 1, 0, [], []⟩, sampleTx [1] "A" "B" 10 1] }
      = sampleChain.transactionsIsValid sampleConfig rewardedBlock :=
  order_irrelevant sampleConfig sampleChain rewardedBlock
    [⟨[2], "STORAGE-CHAIN", "M", 1, 0, [], []⟩, sampleTx [1] "A" "B" 10 1]
    (List.Perm.swap _ _ [])

/-- C20: the validator ignores the snapshot entries of unreferenced addresses: two blocks
that differ only in `Mapping`, and there only at addresses that are neither Sender nor
Receiver of a transaction of the block, get the same verdict; so an accepted block stays
accepted when a balance for an unreferenced address is added to its `Mapping`. -/
theorem unreferenced_entries_ignored (cfg : Config) (chain : BlockChain) (block : Block)
    (mapping2 : String → Option Nat)
    (hsame : ∀ tx ∈ block.Transactions,
      mapping2 tx.Sender = block.Mapping tx.Sender ∧
      mapping2 tx.Receiver = block.Mapping tx.Receiver) :
    chain.transactionsIsValid cfg { block with Mapping := mapping2 }
        = chain.transactionsIsValid cfg block ∧
      ∀ (address : String) (value : Nat),
        (∀ tx ∈ block.Transactions, tx.Sender ≠ address ∧ tx.Receiver ≠ address) →
        chain.transactionsIsValid cfg block = true →
        chain.transactionsIsValid cfg
          { block with Mapping := fun a => if a = address then some value else block.Mapping a }
          = true := by
  constructor
  · apply Bool.eq_iff_iff.mpr
    constructor
    · exact valid_transfer cfg chain { block with Mapping := mapping2 } block rfl
        (List.Perm.refl _) (fun tx hmem => ⟨(hsame tx hmem).1.symm, (hsame tx hmem).2.symm⟩)
    · exact valid_transfer cfg chain block { block with Mapping := mapping2 } rfl
        (List.Perm.refl _) hsame
  · intro address value hunref hvalid
    refine valid_transfer cfg chain block
      { block with Mapping := fun a => if a = address then some value else block.Mapping a }
      rfl (List.Perm.refl _) ?_ hvalid
    intro tx hmem
    simp only [if_neg (hunref tx hmem).1, if_neg (hunref tx hmem).2, and_self]

/-- Witness of C20: `feeBlock` with an entry of 7 for the unreferenced address `"Z"`
gets the verdict of `feeBlock`. -/
theorem unreferenced_entries_ignored_witness :
    sampleChain.transactionsIsValid sampleConfig
        { feeBlock with Mapping := fun a => if a = "Z" then some 7 else feeBlock.Mapping a }
      = sampleChain.transactionsIsValid sampleConfig feeBlock :=
  (unreferenced_entries_ignored sampleConfig sampleChain feeBlock
    (fun a => if a = "Z" then some 7 else feeBlock.Mapping a)
    (fun tx hmem => by
      have htx : tx = sampleTx [1] "A" "B" 10 1 := by simpa [feeBlock] using hmem
      subst htx
      exact ⟨by decide, by decide⟩)).1

theorem two_le_countP {α : Type} (p : α → Bool) :
    ∀ (l : List α) (i j : Nat) (a b : α), i < j → l[i]? = some a → l[j]? = some b →
      p a = true → p b = true → 2 ≤ l.countP p := by
  intro l
  induction l with
  | nil => intro i j a b _ hi; simp at hi
  | cons x xs ih =>
    intro i j a b hij hi hj ha hb
    obtain ⟨j2, rfl⟩ : ∃ j2, j = j2 + 1 := ⟨j - 1, by omega⟩
    rw [List.getElem?_cons_succ] at hj
    cases i with
    | zero =>
      have hx : x = a := by simpa using hi
      subst hx
      rw [List.countP_cons_of_pos _ _ ha]
      have hpos : 0 < xs.countP p :=
        List.countP_pos_iff.mpr ⟨b, List.getElem?_mem hj, hb⟩
      omega
    | succ i2 =>
      rw [List.getElem?_cons_succ] at hi
      have h2 := ih i2 j2 a b (by omega) hi hj ha hb
      have hle : xs.countP p ≤ (x :: xs).countP p := by
        rw [List.countP_cons]; omega
      omega

theorem eq_u64_of_int_eq (v bal received fees sent : Nat)
    (h : (v : Int) = ((bal : Int) + (received : Int) + (fees : Int) - (sent : Int))
      % (2 ^ 64 : Int)) :
    v = u64sub (u64add bal (received + fees)) sent := by
  have hc := u64_closed_form bal (received + fees) sent (received + fees) sent rfl rfl
  have : (v : Int) = ((u64sub (u64add bal (received + fees)) sent : Nat) : Int) := by
    rw [hc, h]; push_cast; ring_nf
  exact_mod_cast this

/-- C18: the validator accepts every well-formed block: a block with between 1 and
`TXS_LIMIT + hasStorageTx` transactions, with pairwise distinct `RandBytes` and at most one
transaction sent by `STORAGE_CHAIN`, whose storage-sender transactions pay `STORAGE_REWARD`
to `block.Miner` and whose other transactions satisfy `hashIsValid` and `signIsValid`, and
whose `Mapping` has for every Sender and Receiver the entry `Balance` plus received
amounts (plus all fees for `STORAGE_CHAIN`) minus sent amounts in `uint64` arithmetic. -/
theorem wellformed_block_accepted (cfg : Config) (chain : BlockChain) (block : Block)
    (hcard : 1 ≤ block.Transactions.length ∧
      block.Transactions.length ≤ cfg.TXS_LIMIT + hasStorageTx cfg block.Transactions)
    (hrand : block.Transactions.Pairwise (fun a b => a.RandBytes ≠ b.RandBytes))
    (hone : block.Transactions.countP (fun tx => tx.Sender = cfg.STORAGE_CHAIN) ≤ 1)
    (hshape : ∀ tx ∈ block.Transactions,
      (tx.Sender = cfg.STORAGE_CHAIN →
        tx.Receiver = block.Miner ∧ tx.Value = cfg.STORAGE_REWARD) ∧
      (tx.Sender ≠ cfg.STORAGE_CHAIN →
        cfg.hashIsValid tx = true ∧ cfg.signIsValid tx = true))
    (hbal : ∀ address : String,
      (∃ tx ∈ block.Transactions, tx.Sender = address ∨ tx.Receiver = address) →
      ∃ v, block.Mapping address = some v ∧
        (v : Int) = ((chain.Balance address : Int)
          + (receivedTotal address block.Transactions : Int)
          + (if address = cfg.STORAGE_CHAIN then (feeTotal block.Transactions : Int) else 0)
          - (sentTotal address block.Transactions : Int)) % (2 ^ 64 : Int)) :
    chain.transactionsIsValid cfg block = true := by
  have hbalOk : ∀ address : String,
      (∃ tx ∈ block.Transactions, tx.Sender = address ∨ tx.Receiver = address) →
      chain.balanceIsValid cfg block address = true := by
    intro address href
    obtain ⟨v, hv, heq⟩ := hbal address href
    rw [balanceIsValid_iff_totals, hv]
    congr 1
    unfold creditedTotal
    by_cases hc : address = cfg.STORAGE_CHAIN
    · rw [if_pos hc] at heq
      rw [if_pos hc.symm]
      exact eq_u64_of_int_eq _ _ _ _ _ heq
    · rw [if_neg hc] at heq
      rw [if_neg (fun h => hc h.symm)]
      exact eq_u64_of_int_eq _ _ _ 0 _ (by simpa using heq)
  rw [transactionsIsValid_iff]
  refine ⟨⟨by omega, by rw [plusStorage_eq_hasStorageTx]; exact hcard.2⟩, ?_, ?_⟩
  · rw [pairsOk_iff_pairwise, List.pairwise_iff_getElem]
    intro i j hi hj hij
    refine ⟨List.pairwise_iff_getElem.mp hrand i j hi hj hij, ?_⟩
    rintro ⟨hsi, hsj⟩
    have := two_le_countP (fun tx : Transaction => decide (tx.Sender = cfg.STORAGE_CHAIN))
      block.Transactions i j _ _ hij (List.getElem?_eq_getElem hi)
      (List.getElem?_eq_getElem hj) (by simpa using hsi) (by simpa using hsj)
    omega
  · intro tx hmem
    rw [txOk_iff]
    exact ⟨hshape tx hmem, hbalOk _ ⟨tx, hmem, Or.inl rfl⟩, hbalOk _ ⟨tx, hmem, Or.inr rfl⟩⟩

/-- Witness of C18: `rewardedBlock` is well-formed on the ledger after `NewChain`, and so
accepted. -/
theorem wellformed_block_accepted_witness :
    sampleChain.transactionsIsValid sampleConfig rewardedBlock = true :=
  wellformed_block_accepted sampleConfig sampleChain rewardedBlock (by decide) (by decide)
    (by decide) (by decide)
    (fun address href => by
      obtain ⟨tx, hmem, hor⟩ := href
      simp only [rewardedBlock, List.mem_cons, List.mem_singleton, List.not_mem_nil,
        or_false] at hmem
      rcases hmem with rfl | rfl <;> rcases hor with rfl | rfl
      · exact ⟨89, rfl, by decide⟩
      · exact ⟨10, rfl, by decide⟩
      · exact ⟨100, rfl, by decide⟩
      · exact ⟨1, rfl, by decide⟩)

/-- C14: when `transactionsIsValid(block)` is false, `PushBlock` changes nothing: the
stored blocks and `chain.Index` after the call are those before it, and the candidate
block is returned as it was, without reward transaction, hash, signature or nonce. -/
theorem PushBlock_rejection_atomic (cfg : Config) (env : Env) (chain : BlockChain)
    (user : User) (rand : List Nat) (block : Block)
    (hinvalid : chain.transactionsIsValid cfg block = false) :
    (chain.PushBlock cfg env user rand block).1.DB = chain.DB ∧
      (chain.PushBlock cfg env user rand block).1.Index = chain.Index ∧
      (chain.PushBlock cfg env user rand block).2 = block := by
  unfold BlockChain.PushBlock
  rw [hinvalid]
  exact ⟨rfl, rfl, rfl⟩

/-- Witness of C14: the overdraft of `"A"` with the unwrapped snapshot entry 0 is rejected
and `PushBlock` leaves the ledger and the block as they were. -/
theorem PushBlock_rejection_atomic_witness :
    (sampleChain.PushBlock sampleConfig sampleEnv sampleUser [9]
        { overdraftBlock with Mapping := fun a => if a = "A" then some 0 else some 101 }).1.DB
        = sampleChain.DB ∧
      (sampleChain.PushBlock sampleConfig sampleEnv sampleUser [9]
        { overdraftBlock with Mapping := fun a => if a = "A" then some 0 else some 101 }).1.Index
        = sampleChain.Index ∧
      (sampleChain.PushBlock sampleConfig sampleEnv sampleUser [9]
        { overdraftBlock with Mapping := fun a => if a = "A" then some 0 else some 101 }).2
        = { overdraftBlock with Mapping := fun a => if a = "A" then some 0 else some 101 } :=
  PushBlock_rejection_atomic sampleConfig sampleEnv sampleChain sampleUser [9] _ (by decide)

theorem AddBlock_index (chain : BlockChain) (block : Block) :
    (chain.AddBlock block).Index = u64add chain.Index 1 := by
  unfold BlockChain.AddBlock
  split <;> rfl

theorem AddBlock_fresh (chain : BlockChain) (block : Block)
    (hfresh : ∀ stored ∈ chain.DB, stored.CurrHash ≠ block.CurrHash) :
    (chain.AddBlock block).DB = chain.DB ++ [block] := by
  unfold BlockChain.AddBlock
  rw [if_neg]
  simpa using hfresh

theorem AddBlock_duplicate (chain : BlockChain) (block : Block)
    (hdup : ∃ stored ∈ chain.DB, stored.CurrHash = block.CurrHash) :
    (chain.AddBlock block).DB = chain.DB := by
  unfold BlockChain.AddBlock
  rw [if_pos]
  simpa using hdup

theorem PushBlock_valid (cfg : Config) (env : Env) (chain : BlockChain)
    (user : User) (rand : List Nat) (block : Block)
    (hvalid : chain.transactionsIsValid cfg block = true) :
    chain.PushBlock cfg env user rand block
      = (chain.AddBlock (finalBlock cfg env chain user rand block),
          finalBlock cfg env chain user rand block) := by
  unfold BlockChain.PushBlock
  rw [hvalid]
  rfl

/-- C15 (counterexample): the candidate `feeBlock` (miner `"M"`) passes
`transactionsIsValid`; `PushBlock` for the user with address `"U"` adds the reward
transaction to `"U"`, after which the block fails `transactionsIsValid`, and the block is
appended at height 2 all the same. -/
theorem PushBlock_appends_invalid_block :
    sampleChain.transactionsIsValid sampleConfig feeBlock = true ∧
      (sampleChain.PushBlock sampleConfig sampleEnv sampleUser [9] feeBlock).1.DB.length = 2 ∧
      (sampleChain.PushBlock sampleConfig sampleEnv sampleUser [9] feeBlock).1.blockAt 2
        = some (sampleChain.PushBlock sampleConfig sampleEnv sampleUser [9] feeBlock).2 ∧
      (sampleChain.PushBlock sampleConfig sampleEnv sampleUser [9] feeBlock).2.Transactions.length
        = 2 ∧
      sampleChain.transactionsIsValid sampleConfig
        (sampleChain.PushBlock sampleConfig sampleEnv sampleUser [9] feeBlock).2 = false :=
  ⟨by decide, by decide, rfl, by decide, by decide⟩

/-- C15 (amended): `PushBlock` validates the candidate once, before the reward
transaction is added: it appends a block only if the candidate passes
`transactionsIsValid`; and when the candidate passes, the block with the reward
transaction, hash, signature and nonce goes to `AddBlock` without a second validation, so
that it is appended whenever its hash is not stored yet. -/
theorem PushBlock_validates_once (cfg : Config) (env : Env) (chain : BlockChain)
    (user : User) (rand : List Nat) (block : Block) :
    ((chain.PushBlock cfg env user rand block).1.DB ≠ chain.DB →
        chain.transactionsIsValid cfg block = true) ∧
      (chain.transactionsIsValid cfg block = true →
        (∀ stored ∈ chain.DB,
          stored.CurrHash ≠ (finalBlock cfg env chain user rand block).CurrHash) →
        (chain.PushBlock cfg env user rand block).1.DB
            = chain.DB ++ [finalBlock cfg env chain user rand block] ∧
          (chain.PushBlock cfg env user rand block).2
            = finalBlock cfg env chain user rand block) := by
  constructor
  · intro hne
    by_contra hvalid
    have hinv : chain.transactionsIsValid cfg block = false := by
      cases h : chain.transactionsIsValid cfg block
      · rfl
      · exact absurd h hvalid
    apply hne
    unfold BlockChain.PushBlock
    rw [hinv]
    rfl
  · intro hvalid hfresh
    rw [PushBlock_valid cfg env chain user rand block hvalid]
    exact ⟨AddBlock_fresh chain _ hfresh, rfl⟩

/-- Witness of C15 (amended): `PushBlock` of `feeBlock` for the user `"U"` appends the
finalised block. -/
theorem PushBlock_validates_once_witness :
    (sampleChain.PushBlock sampleConfig sampleEnv sampleUser [9] feeBlock).1.DB
        = sampleChain.DB ++ [finalBlock sampleConfig sampleEnv sampleChain sampleUser [9] feeBlock] ∧
      (sampleChain.PushBlock sampleConfig sampleEnv sampleUser [9] feeBlock).2
        = finalBlock sampleConfig sampleEnv sampleChain sampleUser [9] feeBlock :=
  (PushBlock_validates_once sampleConfig sampleEnv sampleChain sampleUser [9] feeBlock).2
    (by decide) (by decide)

/-- C16 (evaluation of the code at the failing input): on the ledger after `NewChain`,
`AddBlock` of a block whose `CurrHash` is `GENESIS_BLOCK`, as that of the stored genesis
block, stores nothing, and `chain.Index` goes from 1 to 2, above the number of stored
blocks. -/
theorem failed_append_advances_index :
    (∃ stored ∈ sampleChain.DB,
        stored.CurrHash = (genesisBlock sampleConfig "B").CurrHash) ∧
      (sampleChain.AddBlock (genesisBlock sampleConfig "B")).DB.length = 1 ∧
      sampleChain.Index = 1 ∧
      (sampleChain.AddBlock (genesisBlock sampleConfig "B")).Index = 2 ∧
      (sampleChain.AddBlock (genesisBlock sampleConfig "B")).Size = 1 := by
  decide

theorem printRow_eq (cfg : Config) (env : Env) (chain : BlockChain)
    (out : List ReportLine) (row : Nat × Block) :
    printRow cfg env (chain, out) row
      = (chain, out ++ replayLines cfg env chain.DB row.1 row.2) := by
  unfold printRow replayLines
  by_cases h : row.1 = 1
  · simp only [h, if_true, List.append_assoc, List.singleton_append]
  · simp only [h, if_false, List.append_assoc, List.singleton_append, List.cons_append,
      List.nil_append]

theorem foldl_printRow (cfg : Config) (env : Env) (chain : BlockChain) :
    ∀ (rows : List (Nat × Block)) (out : List ReportLine),
      rows.foldl (printRow cfg env) (chain, out)
        = (chain, out ++ (rows.map fun row => replayLines cfg env chain.DB row.1 row.2).flatten) := by
  intro rows
  induction rows with
  | nil => intro out; simp
  | cons row rows ih =>
    intro out
    rw [List.foldl_cons, printRow_eq, ih]
    simp [List.append_assoc]

/-- C19: `PrintChain` reports for the stored block at position 1 only the check
`CurrHash = GENESIS_BLOCK`, and for the block at each position `i >= 2` the transactions
check `transactionsIsValid(block)` evaluated with `chain.Index = i - 1`, whatever the
cursor was at the call; and after `PrintChain` the chain handle, `chain.Index` included,
is as before the call. -/
theorem PrintChain_replay (cfg : Config) (env : Env) (chain : BlockChain) :
    (chain.PrintChain cfg env).1 = chain ∧
      (chain.PrintChain cfg env).2
        = ((chain.DB.enumFrom 1).map
            fun row => replayLines cfg env chain.DB row.1 row.2).flatten := by
  unfold BlockChain.PrintChain
  rw [foldl_printRow]
  exact ⟨rfl, by simp⟩

theorem valid_referenced_closed (cfg : Config) (chain : BlockChain) (block : Block)
    (address : String) (hvalid : chain.transactionsIsValid cfg block = true)
    (href : ∃ tx ∈ block.Transactions, tx.Sender = address ∨ tx.Receiver = address) :
    block.Mapping address = some
      (u64sub (u64add (chain.Balance address) (creditedTotal cfg address block.Transactions))
        (sentTotal address block.Transactions)) := by
  obtain ⟨tx, hmem, hor⟩ := href
  have htx := (txOk_iff cfg chain block tx).mp
    (((transactionsIsValid_iff cfg chain block).mp hvalid).2.2 tx hmem)
  rw [balanceIsValid_iff_totals, balanceIsValid_iff_totals] at htx
  rcases hor with h | h
  · rw [← h]; exact htx.2.1
  · rw [← h]; exact htx.2.2

theorem Balance_after_append (db : List Block) (block : Block) (address : String) (v : Nat)
    (hlt : db.length + 1 < queryArgLimit) (h : block.Mapping address = some v) :
    BlockChain.Balance ⟨db ++ [block], db.length + 1⟩ address = v := by
  rw [Balance_of_lt _ _ hlt]
  unfold BlockChain.rowsDesc
  have htake : (db ++ [block]).take (db.length + 1) = db ++ [block] := by
    apply List.take_of_length_le
    simp
  simp only [htake, List.reverse_append, List.reverse_singleton, List.singleton_append,
    scanBalance, h]

theorem AddBlock_appended (chain : BlockChain) (block : Block)
    (hcursor : chain.Index = chain.DB.length) (hsmall : chain.DB.length + 1 < U64)
    (hfresh : ∀ stored ∈ chain.DB, stored.CurrHash ≠ block.CurrHash) :
    chain.AddBlock block = ⟨chain.DB ++ [block], chain.DB.length + 1⟩ := by
  have hdb := AddBlock_fresh chain block hfresh
  have hidx := AddBlock_index chain block
  rw [hcursor] at hidx
  have hmod : u64add chain.DB.length 1 = chain.DB.length + 1 := by
    unfold u64add
    exact Nat.mod_eq_of_lt hsmall
  rw [hmod] at hidx
  cases hres : chain.AddBlock block with
  | mk db2 idx2 =>
    rw [hres] at hdb hidx
    simp only at hdb hidx
    rw [hdb, hidx]

/-- C12 (counterexample): on the chain initialised with receiver `"A"`, the block
`rewardedBlock` (the transfer `"A" -> "B"` of 10 with fee 1 and the reward transaction to
the miner `"M"`) is accepted at cursor 1 and appended; at cursor 2 the balance of
`STORAGE_CHAIN` is 100, that is `STORAGE_VALUE + 1 - STORAGE_REWARD`, and not
`STORAGE_VALUE + 1 + STORAGE_REWARD = 102`. -/
theorem end_to_end_storage_pays_reward :
    (NewChain sampleConfig "A").transactionsIsValid sampleConfig rewardedBlock = true ∧
      ((NewChain sampleConfig "A").AddBlock rewardedBlock).Index = 2 ∧
      ((NewChain sampleConfig "A").AddBlock rewardedBlock).DB.length = 2 ∧
      ((NewChain sampleConfig "A").AddBlock rewardedBlock).Balance
        sampleConfig.STORAGE_CHAIN = 100 ∧
      sampleConfig.STORAGE_VALUE + 1 + sampleConfig.STORAGE_REWARD = 102 := by
  decide

/-- C12 (amended): on a chain initialised with receiver `"A"`, with `"A"`, `"B"`, the
miner and `STORAGE_CHAIN` pairwise distinct, for every block that consists of the
transaction `"A" -> "B"` with Value 10 and ToStorage 1 and the reward transaction
`STORAGE_CHAIN -> miner` of `STORAGE_REWARD`, that is accepted at cursor 1 and appended by
`AddBlock`, the height becomes 2 and at cursor 2, in `uint64` arithmetic,
`Balance("A") = GENESIS_REWARD - 11`, `Balance("B") = 10` and
`Balance(STORAGE_CHAIN) = STORAGE_VALUE + 1 - STORAGE_REWARD`. -/
theorem end_to_end_balances (cfg : Config) (block : Block) (t1 t2 : Transaction)
    (hA : cfg.STORAGE_CHAIN ≠ "A") (hB : cfg.STORAGE_CHAIN ≠ "B")
    (hMA : block.Miner ≠ "A") (hMB : block.Miner ≠ "B")
    (hMS : block.Miner ≠ cfg.STORAGE_CHAIN)
    (ht1 : t1.Sender = "A" ∧ t1.Receiver = "B" ∧ t1.Value = 10 ∧ t1.ToStorage = 1)
    (ht2 : t2.Sender = cfg.STORAGE_CHAIN ∧ t2.Receiver = block.Miner ∧
      t2.Value = cfg.STORAGE_REWARD)
    (htxs : block.Transactions.Perm [t1, t2])
    (hvalid : (NewChain cfg "A").transactionsIsValid cfg block = true)
    (happend : block.CurrHash ≠ cfg.GENESIS_BLOCK) :
    ((NewChain cfg "A").AddBlock block).Index = 2 ∧
      ((NewChain cfg "A").AddBlock block).DB.length = 2 ∧
      (((NewChain cfg "A").AddBlock block).Balance "A" : Int)
        = ((cfg.GENESIS_REWARD : Int) - 11) % (2 ^ 64 : Int) ∧
      ((NewChain cfg "A").AddBlock block).Balance "B" = 10 ∧
      (((NewChain cfg "A").AddBlock block).Balance cfg.STORAGE_CHAIN : Int)
        = ((cfg.STORAGE_VALUE : Int) + 1 - (cfg.STORAGE_REWARD : Int)) % (2 ^ 64 : Int) := by
  obtain ⟨hs1, hr1, hv1, hf1⟩ := ht1
  obtain ⟨hs2, hr2, hv2⟩ := ht2
  have hAB : ("A" : String) ≠ "B" := by decide
  have hBA : ("B" : String) ≠ "A" := by decide
  have hA2 : "A" ≠ cfg.STORAGE_CHAIN := fun h => hA h.symm
  have hB2 : "B" ≠ cfg.STORAGE_CHAIN := fun h => hB h.symm
  have hAM : "A" ≠ block.Miner := fun h => hMA h.symm
  have hBM : "B" ≠ block.Miner := fun h => hMB h.symm
  have hSM : cfg.STORAGE_CHAIN ≠ block.Miner := fun h => hMS h.symm
  rw [NewChain_eq] at hvalid ⊢
  have hadd : BlockChain.AddBlock ⟨[genesisBlock cfg "A"], 1⟩ block
      = ⟨[genesisBlock cfg "A"] ++ [block], 2⟩ := by
    apply AddBlock_appended _ _ rfl (by unfold U64; simp)
    intro stored hmem
    have hst : stored = genesisBlock cfg "A" := by simpa using hmem
    subst hst
    exact fun h => happend h.symm
  rw [hadd]
  have hm1 : t1 ∈ block.Transactions := htxs.mem_iff.mpr (by simp)
  have hm2 : t2 ∈ block.Transactions := htxs.mem_iff.mpr (by simp)
  have hmapA := valid_referenced_closed cfg _ block "A" hvalid ⟨t1, hm1, Or.inl hs1⟩
  have hmapB := valid_referenced_closed cfg _ block "B" hvalid ⟨t1, hm1, Or.inr hr1⟩
  have hmapS := valid_referenced_closed cfg _ block cfg.STORAGE_CHAIN hvalid
    ⟨t2, hm2, Or.inl hs2⟩
  rw [sentTotal_perm _ _ _ htxs, creditedTotal_perm cfg _ _ _ htxs, Balance_singleton] at hmapA
  rw [sentTotal_perm _ _ _ htxs, creditedTotal_perm cfg _ _ _ htxs, Balance_singleton] at hmapB
  rw [sentTotal_perm _ _ _ htxs, creditedTotal_perm cfg _ _ _ htxs, Balance_singleton] at hmapS
  have hsentA : sentTotal "A" [t1, t2] = 11 := by
    simp [sentTotal, List.filter, hs1, hs2, hA, hA2, hv1, hf1]
  have hcredA : creditedTotal cfg "A" [t1, t2] = 0 := by
    simp [creditedTotal, receivedTotal, List.filter, hr1, hr2, hA, hA2, hMA, hAM, hBA, hAB]
  have hsentB : sentTotal "B" [t1, t2] = 0 := by
    simp [sentTotal, List.filter, hs1, hs2, hB, hB2, hAB, hBA]
  have hcredB : creditedTotal cfg "B" [t1, t2] = 10 := by
    simp [creditedTotal, receivedTotal, List.filter, hr1, hr2, hB, hB2, hMB, hBM, hv1]
  have hsentS : sentTotal cfg.STORAGE_CHAIN [t1, t2]
      = cfg.STORAGE_REWARD + t2.ToStorage := by
    simp [sentTotal, List.filter, hs1, hs2, hA, hA2, hv2]
  have hcredS : creditedTotal cfg cfg.STORAGE_CHAIN [t1, t2] = 1 + t2.ToStorage := by
    simp [creditedTotal, receivedTotal, feeTotal, List.filter, hr1, hr2, hB, hB2, hMS, hSM,
      hf1]
  have hgA : ((genesisBlock cfg "A").Mapping "A").getD 0 = cfg.GENESIS_REWARD := by
    simp [genesisBlock]
  have hgB : ((genesisBlock cfg "A").Mapping "B").getD 0 = 0 := by
    simp [genesisBlock, hBA, hB, hB2]
  have hgS : ((genesisBlock cfg "A").Mapping cfg.STORAGE_CHAIN).getD 0 = cfg.STORAGE_VALUE := by
    simp [genesisBlock, hA, hA2]
  rw [hsentA, hcredA, hgA] at hmapA
  rw [hsentB, hcredB, hgB] at hmapB
  rw [hsentS, hcredS, hgS] at hmapS
  have hcur : [genesisBlock cfg "A"].length + 1 < queryArgLimit := by
    unfold queryArgLimit; norm_num
  have hbA := Balance_after_append [genesisBlock cfg "A"] block "A" _ hcur hmapA
  have hbB := Balance_after_append [genesisBlock cfg "A"] block "B" _ hcur hmapB
  have hbS := Balance_after_append [genesisBlock cfg "A"] block cfg.STORAGE_CHAIN _ hcur hmapS
  refine ⟨rfl, rfl, ?_, ?_, ?_⟩
  · have := u64_closed_form cfg.GENESIS_REWARD 0 11 0 11 rfl rfl
    rw [show BlockChain.Balance ⟨[genesisBlock cfg "A"] ++ [block], 2⟩ "A" = _ from hbA, this]
    simp
  · rw [show BlockChain.Balance ⟨[genesisBlock cfg "A"] ++ [block], 2⟩ "B" = _ from hbB]
    decide
  · have := u64_closed_form cfg.STORAGE_VALUE (1 + t2.ToStorage)
      (cfg.STORAGE_REWARD + t2.ToStorage) (1 + t2.ToStorage)
      (cfg.STORAGE_REWARD + t2.ToStorage) rfl rfl
    rw [show BlockChain.Balance ⟨[genesisBlock cfg "A"] ++ [block], 2⟩ cfg.STORAGE_CHAIN = _
      from hbS, this]
    push_cast
    ring_nf

/-- Witness of C12 (amended): `rewardedBlock` on the chain initialised with receiver
`"A"` in the sample configuration. -/
theorem end_to_end_balances_witness :
    ((NewChain sampleConfig "A").AddBlock rewardedBlock).Index = 2 ∧
      ((NewChain sampleConfig "A").AddBlock rewardedBlock).DB.length = 2 ∧
      (((NewChain sampleConfig "A").AddBlock rewardedBlock).Balance "A" : Int)
        = ((sampleConfig.GENESIS_REWARD : Int) - 11) % (2 ^ 64 : Int) ∧
      ((NewChain sampleConfig "A").AddBlock rewardedBlock).Balance "B" = 10 ∧
      (((NewChain sampleConfig "A").AddBlock rewardedBlock).Balance
          sampleConfig.STORAGE_CHAIN : Int)
        = ((sampleConfig.STORAGE_VALUE : Int) + 1 - (sampleConfig.STORAGE_REWARD : Int))
          % (2 ^ 64 : Int) :=
  end_to_end_balances sampleConfig rewardedBlock (sampleTx [1] "A" "B" 10 1)
    ⟨[2], "STORAGE-CHAIN", "M", 1, 0, [], []⟩
    (by decide) (by decide) (by decide) (by decide) (by decide)
    ⟨rfl, rfl, rfl, rfl⟩ ⟨rfl, rfl, rfl⟩ (List.Perm.refl _) (by decide) (by decide)

theorem sum_map_ite_of_mem (x : String) (c : Nat) :
    ∀ addrs : List String, addrs.Nodup → x ∈ addrs →
      (addrs.map fun a => if x = a then c else 0).sum = c := by
  intro addrs
  induction addrs with
  | nil => intro _ h; simp at h
  | cons a rest ih =>
    intro hnd hmem
    rw [List.nodup_cons] at hnd
    rw [List.map_cons, List.sum_cons]
    by_cases hxa : x = a
    · subst hxa
      have hzero : (rest.map fun a => if x = a then c else 0).sum = 0 := by
        apply List.sum_eq_zero
        intro y hy
        obtain ⟨a2, ha2, rfl⟩ := List.mem_map.mp hy
        rw [if_neg]
        intro h; subst h; exact hnd.1 ha2
      rw [if_pos rfl, hzero]
      rfl
    · have hmem2 : x ∈ rest := by
        rcases List.mem_cons.mp hmem with h | h
        · exact absurd h hxa
        · exact h
      rw [if_neg hxa, ih hnd.2 hmem2]
      simp

theorem sum_map_ite_of_not_mem (x : String) (c : Nat) (addrs : List String)
    (h : x ∉ addrs) : (addrs.map fun a => if x = a then c else 0).sum = 0 := by
  apply List.sum_eq_zero
  intro y hy
  obtain ⟨a2, ha2, rfl⟩ := List.mem_map.mp hy
  rw [if_neg]
  intro hx; subst hx; exact h ha2

theorem sum_by_key (key : Transaction → String) (f : Transaction → Nat)
    (addrs : List String) (hnd : addrs.Nodup) :
    ∀ txs : List Transaction, (∀ tx ∈ txs, key tx ∈ addrs) →
      (addrs.map fun a => ((txs.filter fun tx => key tx = a).map f).sum).sum
        = (txs.map f).sum := by
  intro txs
  induction txs with
  | nil => intro _; simp
  | cons t ts ih =>
    intro hkeys
    have hstep : ∀ a : String,
        (((t :: ts).filter fun tx => key tx = a).map f).sum
          = (if key t = a then f t else 0) + ((ts.filter fun tx => key tx = a).map f).sum := by
      intro a
      by_cases h : key t = a
      · simp [List.filter_cons, h]
      · simp [List.filter_cons, h]
    simp only [hstep]
    rw [List.sum_map_add, sum_map_ite_of_mem (key t) (f t) addrs hnd
      (hkeys t (List.mem_cons_self _ _)),
      ih (fun tx hm => hkeys tx (List.mem_cons_of_mem _ hm))]
    simp

theorem u64_entry_congr (b c s : Nat) :
    (u64sub (u64add b c) s + s) % U64 = (b + c) % U64 := by
  unfold u64sub u64add U64
  norm_num
  omega

theorem sum_congr_mod (f s b c : String → Nat) :
    ∀ addrs : List String, (∀ a ∈ addrs, (f a + s a) % U64 = (b a + c a) % U64) →
      ((addrs.map f).sum + (addrs.map s).sum) % U64
        = ((addrs.map b).sum + (addrs.map c).sum) % U64 := by
  intro addrs
  induction addrs with
  | nil => intro _; rfl
  | cons a rest ih =>
    intro h
    have h1 := h a (List.mem_cons_self _ _)
    have h2 := ih (fun x hx => h x (List.mem_cons_of_mem _ hx))
    simp only [List.map_cons, List.sum_cons]
    unfold U64 at *
    norm_num at *
    omega

theorem sum_sentTotal (addrs : List String) (hnd : addrs.Nodup) (txs : List Transaction)
    (hkeys : ∀ tx ∈ txs, tx.Sender ∈ addrs) :
    (addrs.map fun a => sentTotal a txs).sum
      = (txs.map fun tx => tx.Value).sum + feeTotal txs := by
  unfold sentTotal feeTotal
  rw [sum_by_key (fun tx => tx.Sender) (fun tx => tx.Value + tx.ToStorage) addrs hnd txs hkeys,
    List.sum_map_add]

theorem sum_creditedTotal (cfg : Config) (addrs : List String) (hnd : addrs.Nodup)
    (txs : List Transaction) (hkeys : ∀ tx ∈ txs, tx.Receiver ∈ addrs) :
    (addrs.map fun a => creditedTotal cfg a txs).sum
      = (txs.map fun tx => tx.Value).sum
        + (if cfg.STORAGE_CHAIN ∈ addrs then feeTotal txs else 0) := by
  unfold creditedTotal receivedTotal
  rw [List.sum_map_add,
    sum_by_key (fun tx => tx.Receiver) (fun tx => tx.Value) addrs hnd txs hkeys]
  congr 1
  by_cases hmem : cfg.STORAGE_CHAIN ∈ addrs
  · rw [if_pos hmem, sum_map_ite_of_mem _ _ addrs hnd hmem]
  · rw [if_neg hmem, sum_map_ite_of_not_mem _ _ addrs hmem]

/-- C13 (counterexample): `rewardedBlock` is accepted at cursor 1 on the ledger after
`NewChain` and appended at height 2; the addresses of its `Mapping` are `"A"`, `"B"`,
`"M"` and `STORAGE_CHAIN`; their balances sum to 200 at cursor 1 and to 200 at cursor 2,
not to 200 plus `STORAGE_REWARD`: the reward is paid by the storage address. -/
theorem supply_reward_not_minted :
    sampleChain.transactionsIsValid sampleConfig rewardedBlock = true ∧
      (sampleChain.AddBlock rewardedBlock).Index = 2 ∧
      (sampleChain.AddBlock rewardedBlock).DB.length = 2 ∧
      (∀ a : String, (rewardedBlock.Mapping a).isSome = true ↔
        a ∈ ["A", "B", "M", "STORAGE-CHAIN"]) ∧
      totalBalance sampleChain ["A", "B", "M", "STORAGE-CHAIN"] = 200 ∧
      totalBalance (sampleChain.AddBlock rewardedBlock) ["A", "B", "M", "STORAGE-CHAIN"] = 200 ∧
      sampleConfig.STORAGE_REWARD = 1 := by
  refine ⟨by decide, by decide, by decide, ?_, by decide, by decide, rfl⟩
  intro a
  unfold rewardedBlock
  simp only [List.mem_cons, List.mem_singleton, List.not_mem_nil, or_false]
  split_ifs with h1 h2 h3 h4 <;> simp [*]

/-- C13 (amended): for every ledger of height `h - 1` with the cursor at `h - 1` and every
block that `transactionsIsValid` accepts there and that is appended at height `h`, the sum
of `Balance(address)` at cursor `h` over the addresses that are Sender or Receiver of the
block's transactions is congruent modulo `2^64` to the sum at cursor `h - 1` over the same
addresses, less the block's `ToStorage` fees when `STORAGE_CHAIN` is not among these
addresses: the reward is paid by the storage address and no value is minted. -/
theorem supply_conserved_mod (cfg : Config) (chain : BlockChain) (block : Block)
    (addrs : List String)
    (hcursor : chain.Index = chain.DB.length) (hsmall : chain.DB.length + 1 < queryArgLimit)
    (hvalid : chain.transactionsIsValid cfg block = true)
    (hfresh : ∀ stored ∈ chain.DB, stored.CurrHash ≠ block.CurrHash)
    (hnd : addrs.Nodup)
    (hrefs : ∀ a : String, a ∈ addrs ↔
      ∃ tx ∈ block.Transactions, tx.Sender = a ∨ tx.Receiver = a) :
    (chain.AddBlock block).Index = chain.DB.length + 1 ∧
      (chain.AddBlock block).DB = chain.DB ++ [block] ∧
      (totalBalance (chain.AddBlock block) addrs
          + (if cfg.STORAGE_CHAIN ∈ addrs then 0 else feeTotal block.Transactions)) % U64
        = totalBalance chain addrs % U64 := by
  have hsmall64 : chain.DB.length + 1 < U64 := by
    unfold queryArgLimit at hsmall
    unfold U64
    omega
  rw [AddBlock_appended chain block hcursor hsmall64 hfresh]
  refine ⟨rfl, rfl, ?_⟩
  unfold totalBalance
  have hnew : addrs.map (BlockChain.Balance ⟨chain.DB ++ [block], chain.DB.length + 1⟩)
      = addrs.map (fun a => u64sub (u64add (chain.Balance a)
          (creditedTotal cfg a block.Transactions)) (sentTotal a block.Transactions)) := by
    apply List.map_congr_left
    intro a ha
    exact Balance_after_append chain.DB block a _ hsmall
      (valid_referenced_closed cfg chain block a hvalid ((hrefs a).mp ha))
  rw [hnew]
  have hsum := sum_congr_mod
    (fun a => u64sub (u64add (chain.Balance a) (creditedTotal cfg a block.Transactions))
      (sentTotal a block.Transactions))
    (fun a => sentTotal a block.Transactions) chain.Balance
    (fun a => creditedTotal cfg a block.Transactions) addrs
    (fun a _ => u64_entry_congr _ _ _)
  rw [sum_sentTotal addrs hnd block.Transactions
      (fun tx hm => (hrefs _).mpr ⟨tx, hm, Or.inl rfl⟩),
    sum_creditedTotal cfg addrs hnd block.Transactions
      (fun tx hm => (hrefs _).mpr ⟨tx, hm, Or.inr rfl⟩)] at hsum
  by_cases hmem : cfg.STORAGE_CHAIN ∈ addrs
  · rw [if_pos hmem] at hsum ⊢
    unfold U64 at *
    norm_num at *
    omega
  · rw [if_neg hmem] at hsum ⊢
    unfold U64 at *
    norm_num at *
    omega

/-- Witness of C13 (amended): `rewardedBlock` appended to the ledger after `NewChain`;
its referenced addresses are `"A"`, `"B"`, `"M"` and `STORAGE_CHAIN`. -/
theorem supply_conserved_mod_witness :
    (totalBalance (sampleChain.AddBlock rewardedBlock) ["A", "B", "M", "STORAGE-CHAIN"]
        + (if sampleConfig.STORAGE_CHAIN ∈ ["A", "B", "M", "STORAGE-CHAIN"] then 0
            else feeTotal rewardedBlock.Transactions)) % U64
      = totalBalance sampleChain ["A", "B", "M", "STORAGE-CHAIN"] % U64 :=
  (supply_conserved_mod sampleConfig sampleChain rewardedBlock
    ["A", "B", "M", "STORAGE-CHAIN"] rfl (by decide) (by decide) (by decide) (by decide)
    (fun a => by
      constructor
      · intro h
        simp only [List.mem_cons, List.mem_singleton, List.not_mem_nil, or_false] at h
        rcases h with rfl | rfl | rfl | rfl
        · exact ⟨sampleTx [1] "A" "B" 10 1, by simp [rewardedBlock], Or.inl rfl⟩
        · exact ⟨sampleTx [1] "A" "B" 10 1, by simp [rewardedBlock], Or.inr rfl⟩
        · exact ⟨⟨[2], "STORAGE-CHAIN", "M", 1, 0, [], []⟩, by simp [rewardedBlock], Or.inr rfl⟩
        · exact ⟨⟨[2], "STORAGE-CHAIN", "M", 1, 0, [], []⟩, by simp [rewardedBlock], Or.inl rfl⟩
      · rintro ⟨tx, hmem, hor⟩
        simp only [rewardedBlock, List.mem_cons, List.mem_singleton, List.not_mem_nil,
          or_false] at hmem
        rcases hmem with rfl | rfl <;> rcases hor with rfl | rfl <;> decide)).2.2

/-- Witness of C19: after `PrintChain` on the two-block ledger with the cursor at 7, the
chain handle is as before. -/
theorem PrintChain_replay_witness :
    ((twoBlockChain 7).PrintChain sampleConfig sampleEnv).1 = twoBlockChain 7 ∧
      ((twoBlockChain 7).PrintChain sampleConfig sampleEnv).1.Index = 7 :=
  ⟨(PrintChain_replay sampleConfig sampleEnv (twoBlockChain 7)).1, rfl⟩

end Blockchain
